import Mathlib

/-!
# Verification of the vegeta target-provisioning subsystem

Shallow embedding of the target provisioning code (`lib/targets.go`-style
source, given as `src/unnamed/part_000`): the `Target` data model, the
peeking line scanner, the HTTP-text decoder, the JSON line decoder, the
static round-robin decoder, `ReadAllTargets`, and the JSON target encoder.

Byte streams are modelled as lists of lines (the `bufio` line splitting is
external to the repository); bytes are `Nat` values `< 256`; Go maps
`map[string][]string` (`http.Header`) are modelled as association lists
with per-key operations mirroring Go map assignment and `append`.
-/

/-! ## Characters and whitespace (Go `strings.TrimSpace`, regexp `\s`) -/

/-- Whitespace per Go `unicode.IsSpace` restricted to the Latin-1 range
(space, `\t`, `\n`, `\v`, `\f`, `\r`, NEL, NBSP). -/
def isSpaceGo (c : Char) : Bool :=
  c.toNat = 32 || (9 ≤ c.toNat && c.toNat ≤ 13) || c.toNat = 0x85 || c.toNat = 0xA0

/-- Whitespace class `\s` of Go's regexp (RE2): `[\t\n\f\r ]`. -/
def isSpaceRE (c : Char) : Bool :=
  c = '\t' || c = '\n' || c = '\x0c' || c = '\r' || c = ' '

/-- `strings.TrimSpace` on a character list: drop leading and trailing
whitespace. -/
def trimSpaceList (cs : List Char) : List Char :=
  ((cs.dropWhile isSpaceGo).reverse.dropWhile isSpaceGo).reverse

/-- `strings.TrimSpace`. -/
def trimSpace (s : String) : String :=
  ⟨trimSpaceList s.data⟩

/-- First character of a string (`line[0]` on a non-empty Go string). -/
def firstChar (s : String) : Char :=
  match s.data with
  | [] => ' '
  | c :: _ => c

/-- Split at the first occurrence of `sep`: `strings.SplitN(s, sep, 2)`.
`none` models the single-token result (no separator present). -/
def splitFirstList (sep : Char) : List Char → Option (List Char × List Char)
  | [] => none
  | c :: cs =>
    if c = sep then some ([], cs)
    else (splitFirstList sep cs).map (fun p => (c :: p.1, p.2))

/-- `strings.SplitN(s, sep, 2)` as an optional pair. -/
def splitFirst (sep : Char) (s : String) : Option (String × String) :=
  (splitFirstList sep s.data).map (fun p => (⟨p.1⟩, ⟨p.2⟩))

/-! ## Header maps (`http.Header` = `map[string][]string`) -/

/-- A Go `map[string][]string`, modelled as an association list with
one entry per key (map iteration order is modelled by list order; all
claims are insensitive to key order). -/
abbrev HMap := List (String × List String)

/-- Map lookup `m[k]`, with the Go zero value `nil` (`[]`) for a missing
key. -/
def hLookup (m : HMap) (k : String) : List String :=
  (((m.find? (fun kv => kv.1 == k)).map (fun kv => kv.2)).getD [])

/-- Key membership in the map. -/
def hHasKey (m : HMap) (k : String) : Bool :=
  m.any (fun kv => kv.1 == k)

/-- Go map assignment `m[k] = vs`: replace the entry if the key exists,
otherwise add a new entry. -/
def hSet (m : HMap) (k : String) (vs : List String) : HMap :=
  if hHasKey m k then m.map (fun kv => if kv.1 == k then (k, vs) else kv)
  else m ++ [(k, vs)]

/-- Go `m[k] = append(m[k], vs...)`. -/
def hAppend (m : HMap) (k : String) (vs : List String) : HMap :=
  hSet m k (hLookup m k ++ vs)

/-- `for k, vs := range src { m[k] = vs }`. -/
def hSetAll (m : HMap) (src : HMap) : HMap :=
  src.foldl (fun acc kv => hSet acc kv.1 kv.2) m

/-- `for k, vs := range src { m[k] = append(m[k], vs...) }`. -/
def hAppendAll (m : HMap) (src : HMap) : HMap :=
  src.foldl (fun acc kv => hAppend acc kv.1 kv.2) m

/-! ## The `Target` data model -/

/-- `Target` is an HTTP request blueprint. `Header = none` models a nil
Go map, `some m` a non-nil one; `Body` is a byte list. -/
structure Target where
  Method : String
  URL : String
  Body : List Nat
  Header : Option HMap
  Name : String
deriving DecidableEq

/-- The zero `Target` value (`var tgt Target`). -/
def blankTarget : Target := ⟨"", "", [], none, ""⟩

/-- Number of keys, `len(t.Header)` (nil map has length 0). -/
def hLen (h : Option HMap) : Nat := (h.getD []).length

/-- `Target.Equal`: structural equality on method, URL, body bytes and
the multi-valued header mapping (per key, missing keys read as `nil`).
`Name` is not compared. -/
def Target.Equal (t other : Target) : Bool :=
  t.Method == other.Method && t.URL == other.URL && t.Body == other.Body &&
  hLen t.Header == hLen other.Header &&
  (t.Header.getD []).all
    (fun kv => hLookup (t.Header.getD []) kv.1 == hLookup (other.Header.getD []) kv.1)

/-- The error taxonomy of the targets module: sentinel errors plus the
HTTP-text format errors (each carrying the offending line or token) and
opaque JSON parse errors surfaced unchanged. -/
inductive VErr where
  | noTargets
  | nilTarget
  | noMethod
  | noURL
  | badTarget (line : String)
  | badMethod (tok : String)
  | badURL (tok : String)
  | badHeader (line : String)
  | badBody
  | jsonParse (msg : String)
deriving DecidableEq

/-! ## The peeking scanner (`peekingScanner` wrapping `bufio.Scanner`) -/

/-- A `bufio.Scanner` over a fixed list of lines: `lines` not yet
scanned, `cur` the current token (`Text()`); after a failed `Scan`,
`Text()` returns `""`. -/
structure BufScanner where
  lines : List String
  cur : String
deriving DecidableEq

/-- `bufio.Scanner.Scan`: advance to the next line, reporting whether one
was available. -/
def BufScanner.scanB (b : BufScanner) : Bool × BufScanner :=
  match b.lines with
  | [] => (false, ⟨[], ""⟩)
  | l :: rest => (true, ⟨rest, l⟩)

/-- `bufio.Scanner.Text`. -/
def BufScanner.textB (b : BufScanner) : String := b.cur

/-- `peekingScanner`: wraps a scanner with a single-string lookahead
buffer; the empty string doubles as the "nothing buffered" sentinel. -/
structure PeekingScanner where
  src : BufScanner
  peeked : String
deriving DecidableEq

/-- `peekingScanner.Peek`: scan one line from the underlying source,
remember it in `peeked` and return it; on exhaustion return `""` leaving
`peeked` untouched. -/
def PeekingScanner.peek (s : PeekingScanner) : String × PeekingScanner :=
  let (ok, src') := s.src.scanB
  if !ok then ("", ⟨src', s.peeked⟩)
  else (src'.textB, ⟨src', src'.textB⟩)

/-- `peekingScanner.Scan`: if nothing is buffered, scan the underlying
source; otherwise report the buffered line as available. -/
def PeekingScanner.scan (s : PeekingScanner) : Bool × PeekingScanner :=
  if s.peeked = "" then
    let (ok, src') := s.src.scanB
    (ok, ⟨src', s.peeked⟩)
  else (true, s)

/-- `peekingScanner.Text`: return the buffered line (consuming it) if
present, otherwise the underlying scanner's current token. -/
def PeekingScanner.text (s : PeekingScanner) : String × PeekingScanner :=
  if s.peeked = "" then (s.src.textB, s)
  else (s.peeked, ⟨s.src, ""⟩)

/-- The `Scan()`-then-`Text()` step every decoder loop performs: `none`
when `Scan` reports exhaustion. -/
def PeekingScanner.scanText (s : PeekingScanner) : Option String × PeekingScanner :=
  let (ok, s1) := s.scan
  if ok then
    let (t, s2) := s1.text
    (some t, s2)
  else (none, s1)

/-- Lines still ahead of the consumer: the lookahead buffer (when
non-sentinel) plus the unscanned lines. -/
def psMeasure (s : PeekingScanner) : Nat :=
  (if s.peeked = "" then 0 else 1) + s.src.lines.length

theorem scanText_measure (s s' : PeekingScanner) (l : String)
    (h : s.scanText = (some l, s')) : psMeasure s' < psMeasure s := by
  by_cases hp : s.peeked = ""
  · cases hl : s.src.lines with
    | nil =>
      exfalso
      simp [PeekingScanner.scanText, PeekingScanner.scan, PeekingScanner.text,
        BufScanner.scanB, hp, hl] at h
    | cons a rest =>
      simp [PeekingScanner.scanText, PeekingScanner.scan, PeekingScanner.text,
        BufScanner.scanB, BufScanner.textB, hp, hl] at h
      rcases h with ⟨-, h2⟩
      rw [← h2]
      simp [psMeasure, hp, hl]
  · simp [PeekingScanner.scanText, PeekingScanner.scan, PeekingScanner.text, hp] at h
    rcases h with ⟨-, h2⟩
    rw [← h2]
    simp [psMeasure, hp]

/-! ## The HTTP-text decoder (`httpTargeter`) -/

/-- `startsWithHTTPMethod`: the Go regexp `^[A-Z]+\s` — one or more
uppercase ASCII letters followed by a whitespace character.  (`[A-Z]+`
being greedy and `\s` disjoint from `[A-Z]` makes the maximal-run
formulation equivalent to the regexp.) -/
def startsWithHTTPMethod (t : String) : Bool :=
  let up := t.data.takeWhile (fun c => 'A' ≤ c && c ≤ 'Z')
  !up.isEmpty &&
    (match t.data.drop up.length with
     | c :: _ => isSpaceRE c
     | [] => false)

/-- The first loop of `httpTargeter.Next`: scan lines until one whose
trimmed text is non-empty and does not start with `'#'`; `none` on
exhaustion.  The `fuel` argument only forces termination; it is never
exhausted when it exceeds `psMeasure` (see `findFirstLineF_irrel`). -/
def findFirstLineF : Nat → PeekingScanner → Option String × PeekingScanner
  | 0, ps => (none, ps)
  | fuel + 1, ps =>
    match ps.scanText with
    | (none, s1) => (none, s1)
    | (some l0, s1) =>
      let line := trimSpace l0
      if line = "" then findFirstLineF fuel s1
      else if firstChar line = '#' then findFirstLineF fuel s1
      else (some line, s1)

/-- The scan loop with enough fuel to run to completion. -/
def findFirstLine (ps : PeekingScanner) : Option String × PeekingScanner :=
  findFirstLineF (psMeasure ps + 1) ps

theorem findFirstLineF_irrel :
    ∀ (n m : Nat) (ps : PeekingScanner), psMeasure ps < n → psMeasure ps < m →
      findFirstLineF n ps = findFirstLineF m ps := by
  intro n
  induction n with
  | zero => intro m ps h; omega
  | succ n ih =>
    intro m ps hn hm
    match m, hm with
    | m + 1, _ =>
      show findFirstLineF (n + 1) ps = findFirstLineF (m + 1) ps
      unfold findFirstLineF
      cases h : ps.scanText with
      | mk r s1 =>
        cases r with
        | none => simp
        | some l0 =>
          have hlt := scanText_measure ps s1 l0 h
          simp only []
          have h1 : psMeasure s1 < n := by omega
          have h2 : psMeasure s1 < m := by omega
          by_cases he : trimSpace l0 = "" <;>
            by_cases hh : firstChar (trimSpace l0) = '#' <;>
            simp [he, hh, ih m s1 h1 h2]

/-- One unfolding of the scan loop when a line is available. -/
theorem findFirstLine_step (ps s1 : PeekingScanner) (l0 : String)
    (h : ps.scanText = (some l0, s1)) :
    findFirstLine ps =
      (if trimSpace l0 = "" then findFirstLine s1
       else if firstChar (trimSpace l0) = '#' then findFirstLine s1
       else (some (trimSpace l0), s1)) := by
  have hlt := scanText_measure ps s1 l0 h
  show findFirstLineF (psMeasure ps + 1) ps = _
  unfold findFirstLineF
  rw [h]
  simp only []
  by_cases he : trimSpace l0 = "" <;> by_cases hh : firstChar (trimSpace l0) = '#' <;>
    simp [he, hh, findFirstLineF_irrel (psMeasure ps) (psMeasure s1 + 1) s1 (by omega) (by omega),
      findFirstLine]

/-- One unfolding of the scan loop at exhaustion. -/
theorem findFirstLine_none (ps s1 : PeekingScanner)
    (h : ps.scanText = (none, s1)) : findFirstLine ps = (none, s1) := by
  show findFirstLineF (psMeasure ps + 1) ps = _
  unfold findFirstLineF
  rw [h]

/-- Append one header value: `tgt.Header[k] = append(tgt.Header[k], v)`
(the header map is non-nil at this point of `Next`). -/
def targetHeaderAdd (tgt : Target) (k v : String) : Target :=
  { tgt with Header := some (hAppend (tgt.Header.getD []) k [v]) }

/-- The header/body section loop of `httpTargeter.Next` (source lines
322–344): consume lines until a blank line or exhaustion; an `@`-line
reads the body from a file (`rf` models `ioutil.ReadFile`, `none` being
a read error, which Go pairs with a `nil` byte slice assigned to
`tgt.Body`); other lines must split at a colon into a non-empty trimmed
key and value. -/
def headerLoopF (rf : String → Option (List Nat)) :
    Nat → Target → PeekingScanner → Option VErr × Target × PeekingScanner
  | 0, tgt, ps => (none, tgt, ps)
  | fuel + 1, tgt, ps =>
    match ps.scanText with
    | (none, s1) => (none, tgt, s1)
    | (some l0, s1) =>
      let line := trimSpace l0
      if line = "" then (none, tgt, s1)
      else if firstChar line = '@' then
        match rf ⟨line.data.drop 1⟩ with
        | some bs => (none, { tgt with Body := bs }, s1)
        | none => (some .badBody, { tgt with Body := [] }, s1)
      else
        match splitFirst ':' line with
        | none => (some (.badHeader line), tgt, s1)
        | some (k0, v0) =>
          let k := trimSpace k0
          let v := trimSpace v0
          if k = "" || v = "" then (some (.badHeader line), tgt, s1)
          else headerLoopF rf fuel (targetHeaderAdd tgt k v) s1

/-- The header/body loop with enough fuel to run to completion. -/
def headerLoop (rf : String → Option (List Nat)) (tgt : Target)
    (ps : PeekingScanner) : Option VErr × Target × PeekingScanner :=
  headerLoopF rf (psMeasure ps + 1) tgt ps

theorem headerLoopF_irrel (rf : String → Option (List Nat)) :
    ∀ (n m : Nat) (tgt : Target) (ps : PeekingScanner),
      psMeasure ps < n → psMeasure ps < m →
      headerLoopF rf n tgt ps = headerLoopF rf m tgt ps := by
  intro n
  induction n with
  | zero => intro m tgt ps h; omega
  | succ n ih =>
    intro m tgt ps hn hm
    match m, hm with
    | m + 1, _ =>
      show headerLoopF rf (n + 1) tgt ps = headerLoopF rf (m + 1) tgt ps
      unfold headerLoopF
      cases h : ps.scanText with
      | mk r s1 =>
        cases r with
        | none => simp
        | some l0 =>
          have hlt := scanText_measure ps s1 l0 h
          have h1 : psMeasure s1 < n := by omega
          have h2 : psMeasure s1 < m := by omega
          simp only []
          split
          · rfl
          · split
            · rfl
            · split
              · rfl
              · split
                · rfl
                · exact ih m _ s1 h1 h2

/-- One unfolding of the header/body loop when a line is available. -/
theorem headerLoop_step (rf : String → Option (List Nat)) (tgt : Target)
    (ps s1 : PeekingScanner) (l0 : String) (h : ps.scanText = (some l0, s1)) :
    headerLoop rf tgt ps =
      (let line := trimSpace l0
       if line = "" then (none, tgt, s1)
       else if firstChar line = '@' then
         match rf ⟨line.data.drop 1⟩ with
         | some bs => (none, { tgt with Body := bs }, s1)
         | none => (some .badBody, { tgt with Body := [] }, s1)
       else
         match splitFirst ':' line with
         | none => (some (.badHeader line), tgt, s1)
         | some (k0, v0) =>
           let k := trimSpace k0
           let v := trimSpace v0
           if k = "" || v = "" then (some (.badHeader line), tgt, s1)
           else headerLoop rf (targetHeaderAdd tgt k v) s1) := by
  have hlt := scanText_measure ps s1 l0 h
  show headerLoopF rf (psMeasure ps + 1) tgt ps = _
  unfold headerLoopF
  rw [h]
  simp only []
  split
  · rfl
  · split
    · rfl
    · split
      · rfl
      · split
        · rfl
        · exact headerLoopF_irrel rf (psMeasure ps) (psMeasure s1 + 1) _ s1 (by omega) (by omega)

/-- `httpTargeter.Next`, parameterised over the two external calls it
makes: `purl` models `url.ParseRequestURI` succeeding on a token and
`rf` models `ioutil.ReadFile`.  Returns the error (`none` on success),
the caller's target as mutated by the call, and the advanced scanner. -/
def httpNext (purl : String → Bool) (rf : String → Option (List Nat))
    (body : List Nat) (hdr : HMap) (ps : PeekingScanner) (tgt : Target) :
    Option VErr × Target × PeekingScanner :=
  match findFirstLine ps with
  | (none, s1) => (some .noTargets, tgt, s1)
  | (some line, s1) =>
    let tgt1 := { tgt with Body := body, Header := some (hSetAll [] hdr) }
    match splitFirst ' ' line with
    | none => (some (.badTarget line), tgt1, s1)
    | some (tok0, tok1) =>
      if !startsWithHTTPMethod line then (some (.badMethod tok0), tgt1, s1)
      else
        let tgt2 := { tgt1 with Method := tok0 }
        if !purl tok1 then (some (.badURL tok1), tgt2, s1)
        else
          let tgt3 := { tgt2 with URL := tok1 }
          let (pk, s2) := s1.peek
          let pline := trimSpace pk
          if pline = "" || startsWithHTTPMethod pline then (none, tgt3, s2)
          else headerLoop rf tgt3 s2

/-! ## The JSON line decoder (`jsonTargeter`) -/

/-- The record the line parser fills in: the fields of the repository's
`jsonTarget` wire type (`method`, `url`, base64 `body`, `header`). -/
structure JsonTarget where
  Method : String
  URL : String
  Body : List Nat
  Header : HMap
deriving DecidableEq

/-- `jsonTargeter.Next` on the remaining lines of the source, with the
line-to-`jsonTarget` parse (the generated easyjson decode) abstracted as
`decode`: skip blank lines; at end of stream fail with `noTargets`;
surface a parse error unchanged; require non-empty method then URL;
otherwise fill the caller's target, defaulting the body to the
provider's and appending provider default header values then per-object
ones into the caller's header map (created fresh only when nil). -/
def jsonNextAux (decode : String → Except String JsonTarget)
    (body : List Nat) (hdr : HMap) :
    List String → Target → Option VErr × Target × List String
  | [], tgt => (some .noTargets, tgt, [])
  | l :: rest, tgt =>
    let data := trimSpace l
    if data = "" then jsonNextAux decode body hdr rest tgt
    else
      match decode data with
      | .error e => (some (.jsonParse e), tgt, rest)
      | .ok t =>
        if t.Method = "" then (some .noMethod, tgt, rest)
        else if t.URL = "" then (some .noURL, tgt, rest)
        else
          let h0 := tgt.Header.getD []
          let h1 := hAppendAll h0 hdr
          let h2 := hAppendAll h1 t.Header
          (none,
            { tgt with
              Method := t.Method
              URL := t.URL
              Body := if !t.Body.isEmpty then t.Body else body
              Header := some h2 },
            rest)

/-! ## The static round-robin decoder (`staticTargeter`) -/

/-- Two's-complement wrap into `int64` range, the semantics of Go's
`int64` addition overflow. -/
def wrap64 (n : Int) : Int := (n + 2 ^ 63) % 2 ^ 64 - 2 ^ 63

/-- `staticTargeter`: a fixed target list and the shared `int64`
counter (held as an `Int` that every operation passes through
`wrap64`, so only values in `[-2^63, 2^63)` are reachable). -/
structure StaticTargeter where
  tgts : List Target
  i : Int
deriving DecidableEq

/-- `staticTargeter.Next`: increment the counter with wrapping `int64`
addition (`atomic.AddInt64`) and index the list at
`counter mod length` (Go's truncated `%`).  `none` models the run-time
panic of indexing with a negative remainder (reachable once the
counter has wrapped) or an empty list (division by zero). -/
def staticNext (s : StaticTargeter) : Option (Target × StaticTargeter) :=
  let j := wrap64 (s.i + 1)
  let r := Int.tmod j (s.tgts.length : Int)
  if r < 0 then none
  else (s.tgts.get? r.toNat).map (fun t => (t, ⟨s.tgts, j⟩))

/-- `NewStaticTargeter`: counter starts at `-1` so the first `Next`
serves element `0`. -/
def newStaticTargeter (tgts : List Target) : StaticTargeter := ⟨tgts, -1⟩

/-- The targeter state after `k` calls to `Next` on a freshly
constructed static targeter (`none` once any call panicked). -/
def staticRun (tgts : List Target) : Nat → Option StaticTargeter
  | 0 => some (newStaticTargeter tgts)
  | k + 1 => (staticRun tgts k).bind (fun s => (staticNext s).map (fun p => p.2))

/-- The target returned by the `(k+1)`-th `Next` call (0-indexed `k`) on
a freshly constructed static targeter. -/
def staticOut (tgts : List Target) (k : Nat) : Option Target :=
  (staticRun tgts k).bind (fun s => (staticNext s).map (fun p => p.1))

/-! ## `ReadAllTargets` -/

/-- The `ReadAllTargets` loop over the trace of results successive
`Next` calls produce (`.ok t` a decoded target, `.error e` a failed
call): collect targets until the first `noTargets`, abort on any other
error, and fail with `noTargets` if nothing was collected.  `none` means
the trace ended before the loop did. -/
def readAllGo : List (Except VErr Target) → List Target → Option (Except VErr (List Target))
  | [], _ => none
  | r :: rest, acc =>
    match r with
    | .error .noTargets => some (if acc.isEmpty then .error .noTargets else .ok acc)
    | .error e => some (.error e)
    | .ok t => readAllGo rest (acc ++ [t])

/-- `ReadAllTargets` over a trace of `Next` results. -/
def readAllTargets (rs : List (Except VErr Target)) : Option (Except VErr (List Target)) :=
  readAllGo rs []

/-! ## A concrete stand-in for the external URL parser -/

/-- Modelled from the spec: acceptance of Go's `url.ParseRequestURI`
(standard library `net/url`, outside this repository) at the level the
claims need — a request URI is an absolute URI (it contains a scheme
separator `':'`), a rooted path, or `"*"`.  `httpNext` is parameterised
over this predicate; the concrete model only instantiates witnesses. -/
def urlOkModel (s : String) : Bool :=
  decide (s ≠ "") && (s.data.contains ':' || firstChar s = '/' || s = "*")

/-! ## Claim C1 — the peeking scanner's Peek/Scan/Text contract -/

/-- C1 (counterexample): the claim fails on an empty line.  Peeking the
empty line stores the `""` sentinel, so `Peek` returns `""` but the
following `Scan`+`Text` skip it and return the *next* line `"x"`. -/
theorem claim_C1_counterexample :
    (let s0 : PeekingScanner := ⟨⟨["", "x"], ""⟩, ""⟩
     let p := s0.peek
     let sc := p.2.scan
     let tx := sc.2.text
     p.1 = "" ∧ sc.1 = true ∧ tx.1 = "x" ∧ tx.1 ≠ p.1) := by decide

/-- C1 (amended): at most one line is buffered ahead — a `Peek` that
yields a line consumes exactly one line from the underlying source into
the single `peeked` slot — and for every *non-empty* line the source
yields, `Peek` followed by `Scan` and `Text` returns exactly the peeked
line, neither skipping it (Text returns it) nor duplicating it (the
buffer is cleared and the source stands exactly past that line). -/
theorem claim_C1_peek_scan_text (cur pk l : String) (rest : List String)
    (hne : l ≠ "") :
    (let s0 : PeekingScanner := ⟨⟨l :: rest, cur⟩, pk⟩
     let p := s0.peek
     let sc := p.2.scan
     let tx := sc.2.text
     p.1 = l ∧ p.2.peeked = l ∧ p.2.src.lines = rest ∧
     sc.1 = true ∧ tx.1 = l ∧ tx.2.peeked = "" ∧ tx.2.src.lines = rest) := by
  simp only [PeekingScanner.peek, PeekingScanner.scan, PeekingScanner.text,
    BufScanner.scanB, BufScanner.textB, Bool.not_true, if_neg hne]
  simp [hne]

/-- C1 witness: the amended theorem at the source `["a", "b"]`. -/
theorem claim_C1_witness :
    ("a" : String) ≠ "" ∧
    (let s0 : PeekingScanner := ⟨⟨["a", "b"], "c"⟩, ""⟩
     let p := s0.peek
     let sc := p.2.scan
     let tx := sc.2.text
     p.1 = "a" ∧ p.2.peeked = "a" ∧ p.2.src.lines = ["b"] ∧
     sc.1 = true ∧ tx.1 = "a" ∧ tx.2.peeked = "" ∧ tx.2.src.lines = ["b"]) :=
  ⟨by decide, claim_C1_peek_scan_text "c" "" "a" ["b"] (by decide)⟩

/-! ## Claims C5 and C6 — the static round-robin decoder -/

/-- Integers already in `int64` range are fixed by the wrap. -/
theorem wrap64_eq_self (n : Int) (h1 : -2 ^ 63 ≤ n) (h2 : n < 2 ^ 63) :
    wrap64 n = n := by
  unfold wrap64
  omega

/-- A `Next` call with counter value `k - 1`, for any `k : Nat` still
in `int64` range, serves element `k mod length` and stores counter
`k`. -/
theorem staticNext_at (tgts : List Target) (k : Nat) (hk : (k : Int) < 2 ^ 63) :
    staticNext ⟨tgts, (k : Int) - 1⟩ =
      (tgts.get? (k % tgts.length)).map
        (fun t => (t, ⟨tgts, (k : Int)⟩)) := by
  have hj : (k : Int) - 1 + 1 = (k : Int) := by omega
  have hw : wrap64 (k : Int) = (k : Int) := wrap64_eq_self _ (by omega) hk
  have hr : Int.tmod (k : Int) (tgts.length : Int) =
      ((k % tgts.length : Nat) : Int) := rfl
  simp only [staticNext, hj, hw]
  rw [hr, if_neg (by omega)]
  have ht : ((k % tgts.length : Nat) : Int).toNat = k % tgts.length := by omega
  rw [ht]

/-- After `k` calls on a fresh static targeter over a non-empty Go
slice the counter is `k - 1` and no call has panicked, as long as the
counter has not left `int64` range. -/
theorem staticRun_fresh (tgts : List Target) (h : tgts ≠ []) (k : Nat)
    (hk : (k : Int) < 2 ^ 63) :
    staticRun tgts k = some ⟨tgts, (k : Int) - 1⟩ := by
  induction k with
  | zero =>
    have h0 : ((0 : Nat) : Int) - 1 = -1 := by omega
    rw [h0]
    rfl
  | succ k ih =>
    have hk1 : (k : Int) < 2 ^ 63 := by push_cast at hk ⊢; omega
    show (staticRun tgts k).bind _ = _
    rw [ih hk1, Option.some_bind, staticNext_at tgts k hk1]
    have hl : k % tgts.length < tgts.length :=
      Nat.mod_lt _ (List.length_pos.mpr h)
    rw [List.get?_eq_get hl]
    simp only [Option.map_some']
    congr 2
    push_cast
    ring

/-- C5: on a freshly constructed static targeter over a non-empty list
of length `L` (a Go slice, so `L < 2^63`), the `k`-th `Next` call
(`k < L`, 0-indexed) returns the `k`-th element — each element exactly
once, in order — and the `(L+1)`-th call returns the first element
again. -/
theorem claim_C5_round_robin (tgts : List Target) (h : tgts ≠ [])
    (hlen : tgts.length < 2 ^ 63) :
    (∀ k, k < tgts.length → staticOut tgts k = tgts.get? k) ∧
    staticOut tgts tgts.length = tgts.get? 0 := by
  constructor
  · intro k hk
    have hki : (k : Int) < 2 ^ 63 := by
      have h2 : (2 ^ 63 : Int) = ((2 ^ 63 : Nat) : Int) := by push_cast
      rw [h2]
      exact_mod_cast Nat.lt_trans hk hlen
    unfold staticOut
    rw [staticRun_fresh tgts h k hki, Option.some_bind, staticNext_at tgts k hki,
      Nat.mod_eq_of_lt hk]
    cases tgts.get? k <;> simp
  · have hLi : (tgts.length : Int) < 2 ^ 63 := by
      have h2 : (2 ^ 63 : Int) = ((2 ^ 63 : Nat) : Int) := by push_cast
      rw [h2]
      exact_mod_cast hlen
    unfold staticOut
    rw [staticRun_fresh tgts h tgts.length hLi, Option.some_bind,
      staticNext_at tgts tgts.length hLi, Nat.mod_self]
    cases tgts.get? 0 <;> simp

/-- C5 witness: round-robin over a concrete two-element list. -/
theorem claim_C5_witness :
    (([⟨"GET", "https://a", [], none, ""⟩, ⟨"PUT", "https://b", [], none, ""⟩] :
        List Target) ≠ [] ∧
      ([⟨"GET", "https://a", [], none, ""⟩, ⟨"PUT", "https://b", [], none, ""⟩] :
        List Target).length < 2 ^ 63) ∧
    staticOut [⟨"GET", "https://a", [], none, ""⟩, ⟨"PUT", "https://b", [], none, ""⟩] 0 =
      some ⟨"GET", "https://a", [], none, ""⟩ ∧
    staticOut [⟨"GET", "https://a", [], none, ""⟩, ⟨"PUT", "https://b", [], none, ""⟩] 1 =
      some ⟨"PUT", "https://b", [], none, ""⟩ ∧
    staticOut [⟨"GET", "https://a", [], none, ""⟩, ⟨"PUT", "https://b", [], none, ""⟩] 2 =
      some ⟨"GET", "https://a", [], none, ""⟩ := by
  refine ⟨⟨by decide, by norm_num⟩, ?_, ?_, ?_⟩
  · exact ((claim_C5_round_robin _ (by decide) (by norm_num)).1 0 (by decide)).trans
      (by decide)
  · exact ((claim_C5_round_robin _ (by decide) (by norm_num)).1 1 (by decide)).trans
      (by decide)
  · exact ((claim_C5_round_robin _ (by decide) (by norm_num)).2).trans (by decide)

/-- C6 (counterexample): the claim quantifies over backing lists of any
length, but on the empty list `Next` panics (index/division by zero)
instead of returning normally with an element. -/
theorem claim_C6_counterexample : staticNext ⟨[], -1⟩ = none := by decide

/-- C6 (amended): over any *non-empty* backing list, `Next` never
returns the `noTargets` exhaustion error; and for every counter in the
normal operating range (`-1 ≤ i` from the constructor, `i + 1` still
in `int64` range) it returns normally with an element of the list,
preserving the range lower bound.  The sequence is *not*
unconditionally infinite, though: `atomic.AddInt64` wraps at `2^63`,
after which the truncated remainder can turn negative and `Next`
panics on the index — concretely, on any three-element list with
counter `2^63 - 1` the next call panics instead of returning. -/
theorem claim_C6_inexhaustible (s : StaticTargeter) (h1 : s.tgts ≠ [])
    (h2 : -1 ≤ s.i) (h3 : s.i + 1 < 2 ^ 63) :
    (∃ t s', staticNext s = some (t, s') ∧ t ∈ s.tgts ∧
      s'.tgts = s.tgts ∧ s'.i = s.i + 1 ∧ -1 ≤ s'.i) ∧
    (∀ t1 t2 t3 : Target, staticNext ⟨[t1, t2, t3], 2 ^ 63 - 1⟩ = none) := by
  constructor
  · have hL : 0 < s.tgts.length := List.length_pos.mpr h1
    have hj : 0 ≤ s.i + 1 := by omega
    have hw : wrap64 (s.i + 1) = s.i + 1 := wrap64_eq_self _ (by omega) h3
    have hLpos : (0 : Int) < (s.tgts.length : Int) := by omega
    have hr0 : 0 ≤ Int.tmod (s.i + 1) (s.tgts.length : Int) :=
      Int.tmod_nonneg _ hj
    have hrlt : Int.tmod (s.i + 1) (s.tgts.length : Int) <
        (s.tgts.length : Int) := Int.tmod_lt_of_pos _ hLpos
    have hidx : (Int.tmod (s.i + 1) (s.tgts.length : Int)).toNat <
        s.tgts.length := by omega
    refine ⟨s.tgts.get ⟨_, hidx⟩, ⟨s.tgts, s.i + 1⟩, ?_, List.get_mem _ _ _,
      rfl, rfl, ?_⟩
    · simp only [staticNext, hw]
      rw [if_neg (by omega), List.get?_eq_get hidx]
      rfl
    · show -1 ≤ s.i + 1
      omega
  · intro t1 t2 t3
    have hlen3 : ([t1, t2, t3] : List Target).length = 3 := rfl
    have hcond : Int.tmod (wrap64 ((2 ^ 63 - 1 : Int) + 1)) ((3 : Nat) : Int) < 0 := by
      decide
    simp only [staticNext, hlen3]
    rw [if_pos hcond]

/-- C6 witness: the amended theorem at a concrete one-element state
with an in-range counter. -/
theorem claim_C6_witness :
    ((⟨[⟨"GET", "https://a", [], none, ""⟩], 41⟩ : StaticTargeter).tgts ≠ [] ∧
      (-1 : Int) ≤ (⟨[⟨"GET", "https://a", [], none, ""⟩], 41⟩ : StaticTargeter).i ∧
      (⟨[⟨"GET", "https://a", [], none, ""⟩], (41 : Int)⟩ : StaticTargeter).i + 1 <
        2 ^ 63) ∧
    ((∃ t s', staticNext ⟨[⟨"GET", "https://a", [], none, ""⟩], 41⟩ = some (t, s') ∧
        t ∈ (⟨[⟨"GET", "https://a", [], none, ""⟩], (41 : Int)⟩ : StaticTargeter).tgts ∧
        s'.tgts = [⟨"GET", "https://a", [], none, ""⟩] ∧ s'.i = 41 + 1 ∧ -1 ≤ s'.i) ∧
      (∀ t1 t2 t3 : Target, staticNext ⟨[t1, t2, t3], 2 ^ 63 - 1⟩ = none)) :=
  ⟨⟨by decide, by norm_num, by norm_num⟩,
   claim_C6_inexhaustible _ (by decide) (by norm_num) (by norm_num)⟩

/-! ## Claim C8 — `ReadAllTargets` -/

/-- Successful `Next` results are accumulated in production order. -/
theorem readAllGo_oks (ts : List Target) :
    ∀ (acc : List Target) (rest : List (Except VErr Target)),
      readAllGo (ts.map .ok ++ rest) acc = readAllGo rest (acc ++ ts) := by
  induction ts with
  | nil => intro acc rest; simp
  | cons t ts ih =>
    intro acc rest
    have h1 : readAllGo ((t :: ts).map .ok ++ rest) acc =
        readAllGo (ts.map .ok ++ rest) (acc ++ [t]) := rfl
    rw [h1, ih, List.append_assoc]
    rfl

/-- C8: `ReadAllTargets` drains a provider: if the successive `Next`
results are `k` targets followed by `noTargets`, it returns exactly
those targets in order when `k ≥ 1` and fails with `noTargets` when
`k = 0`; if instead a different error follows the targets, it aborts
immediately returning that error. -/
theorem claim_C8_read_all (ts : List Target)
    (rest : List (Except VErr Target)) (e : VErr) :
    (readAllTargets (ts.map .ok ++ .error .noTargets :: rest) =
       some (if ts.isEmpty then .error .noTargets else .ok ts)) ∧
    (e ≠ .noTargets →
       readAllTargets (ts.map .ok ++ .error e :: rest) = some (.error e)) := by
  constructor
  · rw [readAllTargets, readAllGo_oks]
    rfl
  · intro he
    rw [readAllTargets, readAllGo_oks]
    cases e <;> first | exact absurd rfl he | rfl

/-- C8 witness: one target then exhaustion, an empty source, and an
aborting `noMethod` error. -/
theorem claim_C8_witness :
    (readAllTargets [.ok ⟨"GET", "https://a", [], none, ""⟩, .error .noTargets] =
       some (.ok [⟨"GET", "https://a", [], none, ""⟩])) ∧
    (readAllTargets [.error .noTargets] = some (.error .noTargets)) ∧
    (readAllTargets [.ok ⟨"GET", "https://a", [], none, ""⟩, .error .noMethod] =
       some (.error .noMethod)) := by
  refine ⟨?_, ?_, ?_⟩
  · exact ((claim_C8_read_all [⟨"GET", "https://a", [], none, ""⟩] [] .noMethod).1).trans rfl
  · exact ((claim_C8_read_all [] [] .noMethod).1).trans rfl
  · exact (claim_C8_read_all [⟨"GET", "https://a", [], none, ""⟩] [] .noMethod).2 (by decide)

/-! ## Claim C10 — the HTTP-text decoder mutates the target on failure -/

/-- C10: on failure `httpTargeter.Next` has already mutated the caller's
target.  With provider default body `[7]` and default header `K: v`,
decoding the block `"GET notaurl"` (whose URL token the URL parser
rejects — instantiated with the always-rejecting parser) returns a
`bad URL` error, yet the caller's target — which held method `OLDM`,
URL `OLDU`, body `[9]` and header `B: b` — now holds the provider
default body, a fresh mapping of the provider default headers, and
method `GET`. -/
theorem claim_C10_partial_mutation :
    httpNext (fun _ => false) (fun _ => none) [7] [("K", ["v"])]
      ⟨⟨["GET notaurl"], ""⟩, ""⟩ ⟨"OLDM", "OLDU", [9], some [("B", ["b"])], "nm"⟩ =
    (some (.badURL "notaurl"),
     ⟨"GET", "OLDU", [7], some [("K", ["v"])], "nm"⟩,
     ⟨⟨[], "GET notaurl"⟩, ""⟩) := by decide

/-! ## Claim C2 — comment lines in the HTTP-text decoder -/

/-- C2 (counterexample): a comment line is *not* skipped inside a
block's header/body section.  On the stream `GET https://x/y` followed
by the comment line `# c`, `Next` fails with `bad header: # c`,
although the claim asserts a comment line never causes an error. -/
theorem claim_C2_counterexample :
    (httpNext urlOkModel (fun _ => none) [] []
        ⟨⟨["GET https://x/y", "# c"], ""⟩, ""⟩ blankTarget).1 =
      some (.badHeader "# c") ∧
    trimSpace "# c" ≠ "" ∧ firstChar (trimSpace "# c") = '#' := by decide

/-- C2 (amended): a line whose first non-whitespace character is `'#'`
is skipped while searching for a block's method/URL line (scanning
continues past it, also across block separators); inside a block's
header/body section it is *not* skipped — like any other section line
it fails with `bad header` when it lacks a colon (and would otherwise
be parsed as a header line). -/
theorem claim_C2_comment_lines (l : String) (hne : trimSpace l ≠ "")
    (hc : firstChar (trimSpace l) = '#') :
    (∀ (rest : List String) (cur : String),
       findFirstLine ⟨⟨l :: rest, cur⟩, ""⟩ = findFirstLine ⟨⟨rest, l⟩, ""⟩) ∧
    (∀ (rf : String → Option (List Nat)) (tgt : Target)
       (rest : List String) (cur : String),
       splitFirst ':' (trimSpace l) = none →
       headerLoop rf tgt ⟨⟨l :: rest, cur⟩, ""⟩ =
         (some (.badHeader (trimSpace l)), tgt, ⟨⟨rest, l⟩, ""⟩)) := by
  have hstep : ∀ (rest : List String) (cur : String),
      (⟨⟨l :: rest, cur⟩, ""⟩ : PeekingScanner).scanText =
        (some l, ⟨⟨rest, l⟩, ""⟩) := by
    intro rest cur
    simp [PeekingScanner.scanText, PeekingScanner.scan, PeekingScanner.text,
      BufScanner.scanB, BufScanner.textB]
  constructor
  · intro rest cur
    rw [findFirstLine_step _ _ _ (hstep rest cur), if_neg hne, if_pos hc]
  · intro rf tgt rest cur hsp
    have h1 : firstChar (trimSpace l) ≠ '@' := by rw [hc]; decide
    rw [headerLoop_step rf tgt _ _ _ (hstep rest cur)]
    simp [hne, h1, hsp]

/-- C2 witness: the amended theorem at the comment line `# x`. -/
theorem claim_C2_witness :
    (trimSpace "# x" ≠ "" ∧ firstChar (trimSpace "# x") = '#' ∧
     splitFirst ':' (trimSpace "# x") = none) ∧
    findFirstLine ⟨⟨["# x", "GET https://a"], ""⟩, ""⟩ =
      findFirstLine ⟨⟨["GET https://a"], "# x"⟩, ""⟩ ∧
    headerLoop (fun _ => none) blankTarget ⟨⟨["# x", ""], "z"⟩, ""⟩ =
      (some (.badHeader "# x"), blankTarget, ⟨⟨[""], "# x"⟩, ""⟩) := by
  refine ⟨⟨by decide, by decide, by decide⟩, ?_, ?_⟩
  · exact (claim_C2_comment_lines "# x" (by decide) (by decide)).1 ["GET https://a"] ""
  · exact ((claim_C2_comment_lines "# x" (by decide) (by decide)).2
      (fun _ => none) blankTarget [""] "z" (by decide)).trans (by decide)

/-! ## Claim C4 — first-line format errors of the HTTP-text decoder -/

/-- The claim's own reading of "whitespace-separated tokens"
(`strings.Fields`): maximal runs of non-whitespace characters. -/
def wsTokensAux : List Char → List Char → List String
  | [], acc => if acc.isEmpty then [] else [⟨acc.reverse⟩]
  | c :: cs, acc =>
    if isSpaceGo c then
      if acc.isEmpty then wsTokensAux cs [] else ⟨acc.reverse⟩ :: wsTokensAux cs []
    else wsTokensAux cs (c :: acc)

/-- Whitespace-separated tokens of a string (the spec's wording). -/
def wsTokens (s : String) : List String := wsTokensAux s.data []

/-- C4 (counterexample): the claim reads the first line as
*whitespace*-separated tokens, but the code splits at the first *space*
character only.  The line `"GET\tx"` has two whitespace-separated
tokens, a method prefix matching `^[A-Z]+\s` and the URL token `"x"`
rejected by the (here always-rejecting) URL parser, so the claim
predicts a `bad URL` failure — yet `Next` fails with
`bad target: GET\tx`. -/
theorem claim_C4_counterexample :
    wsTokens "GET\tx" = ["GET", "x"] ∧
    startsWithHTTPMethod "GET\tx" = true ∧
    (httpNext (fun _ => false) (fun _ => none) [] []
        ⟨⟨["GET\tx"], ""⟩, ""⟩ blankTarget).1 = some (.badTarget "GET\tx") ∧
    some (VErr.badTarget "GET\tx") ≠ some (VErr.badURL "x") := by decide

/-- C4 (amended): for the first non-comment, non-blank line of a block:
with fewer than two *space*-separated tokens (`SplitN(line, " ", 2)`)
`Next` fails with `bad target` naming the line; with two tokens but a
line not beginning with one or more uppercase ASCII letters followed by
a whitespace character (`^[A-Z]+\s`) it fails with `bad method` naming
the first token; with a well-formed method but a URL token the URL
parser rejects it fails with `bad URL` naming that token.  In
particular `"GET"` alone fails with the target error and
`"BadMethod https://x/y"` with the method error (see the witness). -/
theorem claim_C4_first_line_errors (purl : String → Bool)
    (rf : String → Option (List Nat)) (body : List Nat) (hdr : HMap)
    (ps s1 : PeekingScanner) (tgt : Target) (line : String)
    (hf : findFirstLine ps = (some line, s1)) :
    (splitFirst ' ' line = none →
      (httpNext purl rf body hdr ps tgt).1 = some (.badTarget line)) ∧
    (∀ t0 t1, splitFirst ' ' line = some (t0, t1) →
      startsWithHTTPMethod line = false →
      (httpNext purl rf body hdr ps tgt).1 = some (.badMethod t0)) ∧
    (∀ t0 t1, splitFirst ' ' line = some (t0, t1) →
      startsWithHTTPMethod line = true → purl t1 = false →
      (httpNext purl rf body hdr ps tgt).1 = some (.badURL t1)) := by
  unfold httpNext
  rw [hf]
  refine ⟨fun hsp => ?_, fun t0 t1 hsp hm => ?_, fun t0 t1 hsp hm hp => ?_⟩
  · simp [hsp]
  · simp [hsp, hm]
  · simp [hsp, hm, hp]

/-- C4 witness: the three error cases at `"GET"`,
`"BadMethod https://x/y"` and `"GET notaurl"`. -/
theorem claim_C4_witness :
    (splitFirst ' ' "GET" = none ∧
     splitFirst ' ' "BadMethod https://x/y" = some ("BadMethod", "https://x/y") ∧
     startsWithHTTPMethod "BadMethod https://x/y" = false ∧
     urlOkModel "notaurl" = false) ∧
    (httpNext urlOkModel (fun _ => none) [] []
        ⟨⟨["GET"], ""⟩, ""⟩ blankTarget).1 = some (.badTarget "GET") ∧
    (httpNext urlOkModel (fun _ => none) [] []
        ⟨⟨["BadMethod https://x/y"], ""⟩, ""⟩ blankTarget).1 =
      some (.badMethod "BadMethod") ∧
    (httpNext urlOkModel (fun _ => none) [] []
        ⟨⟨["GET notaurl"], ""⟩, ""⟩ blankTarget).1 = some (.badURL "notaurl") := by
  refine ⟨⟨by decide, by decide, by decide, by decide⟩, ?_, ?_, ?_⟩
  · exact (claim_C4_first_line_errors urlOkModel (fun _ => none) [] []
      ⟨⟨["GET"], ""⟩, ""⟩ ⟨⟨[], "GET"⟩, ""⟩
      blankTarget "GET" (by decide)).1 (by decide)
  · exact (claim_C4_first_line_errors urlOkModel (fun _ => none) [] []
      ⟨⟨["BadMethod https://x/y"], ""⟩, ""⟩ ⟨⟨[], "BadMethod https://x/y"⟩, ""⟩
      blankTarget "BadMethod https://x/y" (by decide)).2.1 "BadMethod" "https://x/y"
      (by decide) (by decide)
  · exact (claim_C4_first_line_errors urlOkModel (fun _ => none) [] []
      ⟨⟨["GET notaurl"], ""⟩, ""⟩ ⟨⟨[], "GET notaurl"⟩, ""⟩
      blankTarget "GET notaurl" (by decide)).2.2 "GET" "notaurl"
      (by decide) (by decide) (by decide)

/-! ## Header-map lemmas -/

theorem hLookup_cons (a : String × List String) (m : HMap) (k : String) :
    hLookup (a :: m) k = if a.1 = k then a.2 else hLookup m k := by
  by_cases h : a.1 = k
  · simp [hLookup, h]
  · simp [hLookup, h]

theorem hHasKey_cons (a : String × List String) (m : HMap) (k : String) :
    hHasKey (a :: m) k = (a.1 == k || hHasKey m k) := by
  simp [hHasKey]

/-- A key absent from every entry looks up to `nil`. -/
theorem hLookup_eq_nil_of_not_has (m : HMap) (k : String)
    (h : hHasKey m k = false) : hLookup m k = [] := by
  unfold hLookup
  cases hf : m.find? (fun kv => kv.1 == k) with
  | none => simp
  | some kv =>
    exfalso
    have h1 := List.find?_some hf
    have h2 : hHasKey m k :=
      List.any_eq_true.mpr ⟨kv, List.mem_of_find?_eq_some hf, h1⟩
    simp [h2] at h

/-- A present key has a `find?` hit. -/
theorem find?_eq_none_of_not_has (m : HMap) (k : String)
    (h : hHasKey m k = false) : m.find? (fun kv => kv.1 == k) = none := by
  cases hf : m.find? (fun kv => kv.1 == k) with
  | none => rfl
  | some kv =>
    exfalso
    have h1 := List.find?_some hf
    have h2 : hHasKey m k :=
      List.any_eq_true.mpr ⟨kv, List.mem_of_find?_eq_some hf, h1⟩
    simp [h2] at h

/-- Lookup after the map-branch of Go assignment (key present). -/
theorem hLookup_replace (m : HMap) (k' k : String) (vs : List String) :
    hLookup (m.map (fun kv => if kv.1 == k' then (k', vs) else kv)) k =
      if k' = k then (if hHasKey m k' then vs else []) else hLookup m k := by
  induction m with
  | nil => by_cases h : k' = k <;> simp [hLookup, hHasKey, h]
  | cons a m ih =>
    simp only [beq_iff_eq] at ih
    by_cases ha : a.1 = k'
    · by_cases hkk : k' = k
      · simp [List.map_cons, ha, hkk, hLookup_cons, hHasKey_cons]
      · have hak : a.1 ≠ k := by rw [ha]; exact hkk
        simp [List.map_cons, ha, hkk, hak, hLookup_cons, hHasKey_cons, ih]
    · by_cases hak : a.1 = k
      · have hkk : k' ≠ k := fun h => ha (hak.trans h.symm)
        simp [List.map_cons, ha, hak, hkk, Ne.symm hkk, hLookup_cons, hHasKey_cons]
      · simp [List.map_cons, ha, hak, hLookup_cons, hHasKey_cons, ih]

/-- Lookup after Go assignment `m[k'] = vs`. -/
theorem hLookup_hSet (m : HMap) (k' k : String) (vs : List String) :
    hLookup (hSet m k' vs) k = if k' = k then vs else hLookup m k := by
  unfold hSet
  by_cases hk : hHasKey m k'
  · rw [if_pos hk, hLookup_replace, hk]
    by_cases hkk : k' = k <;> simp [hkk]
  · rw [if_neg hk]
    have hn := find?_eq_none_of_not_has m k' (by simpa using hk)
    by_cases hkk : k' = k
    · subst hkk
      simp [hLookup, List.find?_append, hn]
    · simp only [hLookup, List.find?_append]
      have hb : (k' == k) = false := beq_eq_false_iff_ne.mpr hkk
      have h1 : List.find? (fun kv => kv.1 == k) [(k', vs)] = none := by
        simp [List.find?, hb]
      rw [h1]
      cases m.find? (fun kv => kv.1 == k) <;> simp [hkk]

/-- Lookup after Go `m[k'] = append(m[k'], vs...)`. -/
theorem hLookup_hAppend (m : HMap) (k' k : String) (vs : List String) :
    hLookup (hAppend m k' vs) k =
      if k' = k then hLookup m k ++ vs else hLookup m k := by
  unfold hAppend
  rw [hLookup_hSet]
  by_cases h : k' = k <;> simp [h]

/-- Merging a whole map into `m` appends, per key, all of the merged
map's values for that key after `m`'s (the merged map having unique
keys, as a Go map does). -/
theorem hLookup_hAppendAll (src : HMap) :
    ∀ (m : HMap) (k : String), (src.map Prod.fst).Nodup →
      hLookup (hAppendAll m src) k = hLookup m k ++ hLookup src k := by
  induction src with
  | nil => intro m k _; simp [hAppendAll, hLookup]
  | cons a src ih =>
    intro m k hnd
    rw [List.map_cons, List.nodup_cons] at hnd
    have h1 : hAppendAll m (a :: src) = hAppendAll (hAppend m a.1 a.2) src := rfl
    rw [h1, ih _ k hnd.2, hLookup_hAppend, hLookup_cons]
    by_cases hk : a.1 = k
    · subst hk
      have hno : hHasKey src a.1 = false := by
        rw [hHasKey, List.any_eq_false]
        intro kv hkv
        simp only [beq_iff_eq]
        intro he
        exact hnd.1 (List.mem_map.mpr ⟨kv, hkv, he⟩)
      rw [hLookup_eq_nil_of_not_has _ _ hno]
      simp
    · simp [hk]

/-! ## Claim C7 — JSON decoder error handling -/

/-- C7: the JSON decoder's `Next`, for any line parser `decode` (the
generated easyjson codec is external to `src/`): blank lines are
skipped; end of stream fails with `noTargets`; a parse error is
surfaced unchanged (wrapped as the `jsonParse` case carrying the
message); an empty parsed method fails with `noMethod`; a non-empty
method with an empty URL fails with `noURL` — and in every error case
the caller's target is left untouched. -/
theorem claim_C7_json_errors (decode : String → Except String JsonTarget)
    (body : List Nat) (hdr : HMap) (tgt : Target) :
    (jsonNextAux decode body hdr [] tgt = (some .noTargets, tgt, [])) ∧
    (∀ l rest, trimSpace l = "" →
      jsonNextAux decode body hdr (l :: rest) tgt =
        jsonNextAux decode body hdr rest tgt) ∧
    (∀ l rest e, trimSpace l ≠ "" → decode (trimSpace l) = .error e →
      jsonNextAux decode body hdr (l :: rest) tgt =
        (some (.jsonParse e), tgt, rest)) ∧
    (∀ l rest t, trimSpace l ≠ "" → decode (trimSpace l) = .ok t →
      t.Method = "" →
      jsonNextAux decode body hdr (l :: rest) tgt = (some .noMethod, tgt, rest)) ∧
    (∀ l rest t, trimSpace l ≠ "" → decode (trimSpace l) = .ok t →
      t.Method ≠ "" → t.URL = "" →
      jsonNextAux decode body hdr (l :: rest) tgt = (some .noURL, tgt, rest)) := by
  refine ⟨rfl, ?_, ?_, ?_, ?_⟩
  · intro l rest h
    simp [jsonNextAux, h]
  · intro l rest e h1 h2
    simp [jsonNextAux, h1, h2]
  · intro l rest t h1 h2 h3
    simp [jsonNextAux, h1, h2, h3]
  · intro l rest t h1 h2 h3 h4
    simp [jsonNextAux, h1, h2, h3, h4]

/-- A concrete line parser exercising every branch of the JSON
decoder's dispatch (stands in for the generated easyjson codec). -/
def jdec0 : String → Except String JsonTarget := fun s =>
  if s = "m" then .ok ⟨"", "", [], []⟩
  else if s = "u" then .ok ⟨"POST", "", [], []⟩
  else .error "boom"

/-- C7 witness: every branch at concrete inputs. -/
theorem claim_C7_witness :
    (trimSpace " " = "" ∧ trimSpace "z" ≠ "" ∧ jdec0 "z" = .error "boom" ∧
     jdec0 "m" = .ok ⟨"", "", [], []⟩ ∧ jdec0 "u" = .ok ⟨"POST", "", [], []⟩) ∧
    jsonNextAux jdec0 [2] [("A", ["1"])] [] blankTarget =
      (some .noTargets, blankTarget, []) ∧
    jsonNextAux jdec0 [2] [("A", ["1"])] [" ", "m"] blankTarget =
      jsonNextAux jdec0 [2] [("A", ["1"])] ["m"] blankTarget ∧
    jsonNextAux jdec0 [2] [("A", ["1"])] ["z"] blankTarget =
      (some (.jsonParse "boom"), blankTarget, []) ∧
    jsonNextAux jdec0 [2] [("A", ["1"])] ["m"] blankTarget =
      (some .noMethod, blankTarget, []) ∧
    jsonNextAux jdec0 [2] [("A", ["1"])] ["u"] blankTarget =
      (some .noURL, blankTarget, []) := by
  obtain ⟨h1, h2, h3, h4, h5⟩ :=
    claim_C7_json_errors jdec0 [2] [("A", ["1"])] blankTarget
  exact ⟨⟨rfl, by decide, rfl, rfl, rfl⟩, h1, h2 " " ["m"] rfl,
    h3 "z" [] "boom" (by decide) rfl,
    h4 "m" [] ⟨"", "", [], []⟩ (by decide) rfl rfl,
    h5 "u" [] ⟨"POST", "", [], []⟩ (by decide) rfl (by decide) rfl⟩

/-! ## Claim C3 — JSON decoder header merging -/

/-- C3 (counterexample): the resulting header mapping is *not* built
starting from an empty mapping regardless of the prior contents of the
caller-supplied target.  When the caller's target already carries the
non-nil header `B: 9`, a successful decode with provider default
`A: 1` and per-object header `A: 2` appends into that existing
mapping: the result still maps `B` to `9`, where a mapping built from
empty would not contain `B` at all. -/
theorem claim_C3_counterexample :
    jsonNextAux (fun _ => .ok ⟨"M", "U", [], [("A", ["2"])]⟩) [] [("A", ["1"])]
      ["x"] ⟨"", "", [], some [("B", ["9"])], ""⟩ =
      (none, ⟨"M", "U", [], some [("B", ["9"]), ("A", ["1", "2"])], ""⟩, []) ∧
    hLookup [("B", ["9"]), ("A", ["1", "2"])] "B" = ["9"] ∧
    hLookup (hAppendAll (hAppendAll [] [("A", ["1"])]) [("A", ["2"])]) "B" = [] := by
  decide

/-- C3 (amended): on every successful `Next` of the JSON decoder whose
caller-supplied target has a nil header, the resulting mapping is built
starting from the empty mapping, all provider-level default values
appended first, all per-object values appended after; per key the
result carries the default values followed by the per-object values
(keys of a Go map being unique).  When the caller's target already
holds a header mapping, values are appended into it instead. -/
theorem claim_C3_header_merge (decode : String → Except String JsonTarget)
    (body : List Nat) (hdr : HMap) (tgt : Target) (l : String)
    (rest : List String) (t : JsonTarget)
    (hH : tgt.Header = none)
    (hne : trimSpace l ≠ "") (hdec : decode (trimSpace l) = .ok t)
    (hm : t.Method ≠ "") (hu : t.URL ≠ "") :
    (jsonNextAux decode body hdr (l :: rest) tgt).1 = none ∧
    (jsonNextAux decode body hdr (l :: rest) tgt).2.1.Header =
      some (hAppendAll (hAppendAll [] hdr) t.Header) ∧
    ((hdr.map Prod.fst).Nodup → (t.Header.map Prod.fst).Nodup →
      ∀ k, hLookup (hAppendAll (hAppendAll [] hdr) t.Header) k =
        hLookup hdr k ++ hLookup t.Header k) := by
  refine ⟨?_, ?_, ?_⟩
  · simp [jsonNextAux, hne, hdec, hm, hu]
  · simp [jsonNextAux, hne, hdec, hm, hu, hH]
  · intro hnd1 hnd2 k
    rw [hLookup_hAppendAll t.Header _ k hnd2, hLookup_hAppendAll hdr _ k hnd1]
    simp [hLookup]

/-- The per-object decode of the C3 witness: header `A: 2`. -/
def jdec1 : String → Except String JsonTarget :=
  fun _ => .ok ⟨"M", "U", [], [("A", ["2"])]⟩

/-- C3 witness: provider default `A: 1`, per-object `A: 2`, fresh
target — the merged header is exactly `A: 1,2`. -/
theorem claim_C3_witness :
    (blankTarget.Header = none ∧ trimSpace "x" ≠ "" ∧
     jdec1 "x" = .ok ⟨"M", "U", [], [("A", ["2"])]⟩) ∧
    (jsonNextAux jdec1 [] [("A", ["1"])] ["x"] blankTarget).1 = none ∧
    (jsonNextAux jdec1 [] [("A", ["1"])] ["x"] blankTarget).2.1.Header =
      some [("A", ["1", "2"])] ∧
    hLookup (hAppendAll (hAppendAll [] [("A", ["1"])]) [("A", ["2"])]) "A" =
      ["1", "2"] := by
  obtain ⟨h1, h2, h3⟩ := claim_C3_header_merge jdec1 [] [("A", ["1"])]
    blankTarget "x" [] ⟨"M", "U", [], [("A", ["2"])]⟩ rfl (by decide) rfl
    (by decide) (by decide)
  exact ⟨⟨rfl, by decide, rfl⟩, h1, h2.trans (by decide),
    (h3 (by decide) (by decide) "A").trans (by decide)⟩

/-! ## Claim C9 — JSON encode/decode round trip

The `jsonTarget` wire codec is generated code (easyjson) not present
under `src/`; per the spec it writes one compact JSON object with the
field names `method`, `url`, `body` (base64 of the byte body, omitted
when empty) and `header` (name → list of values, omitted when empty),
and the decoder reads those fields back.  The development below models
that codec from the spec: standard base64, a JSON value grammar
covering the spec's field shapes, a renderer to one compact line and a
parser back. -/

/-- The standard base64 alphabet: `A-Z`, `a-z`, `0-9`, `+`, `/`. -/
def b64chars : List Char :=
  ((List.range 26).map (fun i => Char.ofNat (65 + i))) ++
    ((List.range 26).map (fun i => Char.ofNat (97 + i))) ++
    ((List.range 10).map (fun i => Char.ofNat (48 + i))) ++ ['+', '/']

/-- Alphabet character of a sextet. -/
def b64c (n : Nat) : Char := b64chars.getD n '?'

/-- Sextet of an alphabet character. -/
def b64index (c : Char) : Option Nat := b64chars.findIdx? (fun x => x == c)

/-- Modelled from the spec: standard base64 encoding with padding
(Go `encoding/base64.StdEncoding`), used by the generated codec for the
`body` field.  Bytes are taken three at a time into four sextets. -/
def b64encode : List Nat → List Char
  | [] => []
  | [b1] => [b64c (b1 / 4), b64c (b1 % 4 * 16), '=', '=']
  | [b1, b2] => [b64c (b1 / 4), b64c (b1 % 4 * 16 + b2 / 16), b64c (b2 % 16 * 4), '=']
  | b1 :: b2 :: b3 :: rest =>
    b64c (b1 / 4) :: b64c (b1 % 4 * 16 + b2 / 16) ::
      b64c (b2 % 16 * 4 + b3 / 64) :: b64c (b3 % 64) :: b64encode rest

/-- Modelled from the spec: standard base64 decoding with padding. -/
def b64decode : List Char → Option (List Nat)
  | c1 :: c2 :: c3 :: c4 :: rest =>
    if c3 = '=' && c4 = '=' && rest.isEmpty then
      (b64index c1).bind fun s1 => (b64index c2).map fun s2 =>
        [s1 * 4 + s2 / 16]
    else if c4 = '=' && rest.isEmpty then
      (b64index c1).bind fun s1 => (b64index c2).bind fun s2 =>
        (b64index c3).map fun s3 =>
          [s1 * 4 + s2 / 16, s2 % 16 * 16 + s3 / 4]
    else
      (b64index c1).bind fun s1 => (b64index c2).bind fun s2 =>
        (b64index c3).bind fun s3 => (b64index c4).bind fun s4 =>
          (b64decode rest).map fun tl =>
            (s1 * 4 + s2 / 16) :: (s2 % 16 * 16 + s3 / 4) :: (s3 % 4 * 64 + s4) :: tl
  | [] => some []
  | _ => none

theorem b64index_b64c : ∀ n, n < 64 → b64index (b64c n) = some n := by decide

theorem b64c_ne_pad : ∀ n, n < 64 → b64c n ≠ '=' := by decide

/-- Base64 round trip on byte lists. -/
theorem b64_roundtrip : ∀ (n : Nat) (bs : List Nat), bs.length ≤ n →
    (∀ b ∈ bs, b < 256) → b64decode (b64encode bs) = some bs := by
  intro n
  induction n with
  | zero =>
    intro bs hl _
    rw [List.length_eq_zero.mp (Nat.le_zero.mp hl)]
    rfl
  | succ n ih =>
    intro bs hl h
    match bs with
    | [] => rfl
    | [b1] =>
      have hb1 : b1 < 256 := h b1 (by simp)
      have h1 := b64index_b64c (b1 / 4) (by omega)
      have h2 := b64index_b64c (b1 % 4 * 16) (by omega)
      simp only [b64encode, b64decode, List.isEmpty_nil, h1, h2]
      norm_num
      omega
    | [b1, b2] =>
      have hb1 : b1 < 256 := h b1 (by simp)
      have hb2 : b2 < 256 := h b2 (by simp)
      have h1 := b64index_b64c (b1 / 4) (by omega)
      have h2 := b64index_b64c (b1 % 4 * 16 + b2 / 16) (by omega)
      have h3 := b64index_b64c (b2 % 16 * 4) (by omega)
      have hpad := b64c_ne_pad (b2 % 16 * 4) (by omega)
      simp only [b64encode, b64decode, List.isEmpty_nil]
      rw [if_neg (by simp [hpad]), if_pos (by simp)]
      rw [h1, h2, h3]
      simp only [Option.some_bind, Option.map_some', Option.some.injEq,
        List.cons.injEq, and_true]
      constructor
      · omega
      · omega
    | b1 :: b2 :: b3 :: rest =>
      have hb1 : b1 < 256 := h b1 (by simp)
      have hb2 : b2 < 256 := h b2 (by simp)
      have hb3 : b3 < 256 := h b3 (by simp)
      have h1 := b64index_b64c (b1 / 4) (by omega)
      have h2 := b64index_b64c (b1 % 4 * 16 + b2 / 16) (by omega)
      have h3 := b64index_b64c (b2 % 16 * 4 + b3 / 64) (by omega)
      have h4 := b64index_b64c (b3 % 64) (by omega)
      have hp3 := b64c_ne_pad (b2 % 16 * 4 + b3 / 64) (by omega)
      have hp4 := b64c_ne_pad (b3 % 64) (by omega)
      have hrest : b64decode (b64encode rest) = some rest := by
        apply ih rest ?_ (fun b hb => h b (by simp [hb]))
        simp only [List.length_cons] at hl
        omega
      show b64decode (b64c (b1 / 4) :: b64c (b1 % 4 * 16 + b2 / 16) ::
        b64c (b2 % 16 * 4 + b3 / 64) :: b64c (b3 % 64) :: b64encode rest) = _
      simp only [b64decode]
      rw [if_neg (by simp [hp3]), if_neg (by simp [hp4])]
      rw [h1, h2, h3, h4]
      simp only [Option.some_bind]
      rw [hrest]
      simp only [Option.map_some', Option.some.injEq, List.cons.injEq]
      refine ⟨by omega, by omega, by omega, trivial⟩

/-- Modelled from the spec: the JSON value shapes of the target line
grammar — strings (method, url, base64 body), arrays of strings
(header values) and string-keyed objects of string arrays (the header
mapping). -/
inductive Jv where
  | str (s : String)
  | arrs (vs : List String)
  | hobj (fs : HMap)
deriving DecidableEq

/-- One target line: the fields of the top-level JSON object. -/
abbrev JLine := List (String × Jv)

/-- Lower-case hex digit of a value below 16. -/
def hexDigit (n : Nat) : Char :=
  if n < 10 then Char.ofNat (48 + n) else Char.ofNat (87 + n)

/-- Four hex digits of a code point. -/
def hex4 (n : Nat) : List Char :=
  [hexDigit (n / 4096 % 16), hexDigit (n / 256 % 16),
   hexDigit (n / 16 % 16), hexDigit (n % 16)]

/-- JSON string escaping of one character: quote and backslash are
escaped, control characters become `\uXXXX`, the rest pass through. -/
def escChar (c : Char) : List Char :=
  if c = '"' then ['\\', '"']
  else if c = '\\' then ['\\', '\\']
  else if c.toNat < 32 then '\\' :: 'u' :: hex4 c.toNat
  else [c]

/-- Escape a whole character list. -/
def escList : List Char → List Char
  | [] => []
  | c :: cs => escChar c ++ escList cs

/-- Render a JSON string literal. -/
def renderStr (s : String) : List Char := '"' :: (escList s.data ++ ['"'])

/-- Comma-join rendered pieces. -/
def commaSep : List (List Char) → List Char
  | [] => []
  | [x] => x
  | x :: xs => x ++ ',' :: commaSep xs

/-- Render a JSON array of strings. -/
def renderArr (l : List String) : List Char :=
  '[' :: (commaSep (l.map renderStr) ++ [']'])

/-- Render the header object. -/
def renderHobj (fs : HMap) : List Char :=
  '\x7b' :: (commaSep (fs.map (fun kv => renderStr kv.1 ++ ':' :: renderArr kv.2)) ++
    ['\x7d'])

/-- Render one JSON value. -/
def renderJv : Jv → List Char
  | .str s => renderStr s
  | .arrs l => renderArr l
  | .hobj fs => renderHobj fs

/-- Render one compact target line (without the trailing newline the
encoder appends, which the line-splitting layer consumes). -/
def renderLine (fs : JLine) : List Char :=
  '\x7b' :: (commaSep (fs.map (fun kv => renderStr kv.1 ++ ':' :: renderJv kv.2)) ++
    ['\x7d'])

/-- Hex digit value. -/
def unhex (c : Char) : Option Nat :=
  if '0' ≤ c ∧ c ≤ '9' then some (c.toNat - 48)
  else if 'a' ≤ c ∧ c ≤ 'f' then some (c.toNat - 87)
  else if 'A' ≤ c ∧ c ≤ 'F' then some (c.toNat - 55)
  else none

/-- Parse the body of a JSON string literal after the opening quote,
returning the decoded characters and the input after the closing
quote. -/
def parseStrBody : List Char → Option (List Char × List Char)
  | [] => none
  | c :: rest =>
    if c = '"' then some ([], rest)
    else if c = '\\' then
      match rest with
      | [] => none
      | e :: rest2 =>
        if e = '"' then (parseStrBody rest2).map (fun p => ('"' :: p.1, p.2))
        else if e = '\\' then (parseStrBody rest2).map (fun p => ('\\' :: p.1, p.2))
        else if e = '/' then (parseStrBody rest2).map (fun p => ('/' :: p.1, p.2))
        else if e = 'n' then (parseStrBody rest2).map (fun p => ('\n' :: p.1, p.2))
        else if e = 't' then (parseStrBody rest2).map (fun p => ('\t' :: p.1, p.2))
        else if e = 'r' then (parseStrBody rest2).map (fun p => ('\r' :: p.1, p.2))
        else if e = 'u' then
          match rest2 with
          | h1 :: h2 :: h3 :: h4 :: rest3 =>
            match unhex h1, unhex h2, unhex h3, unhex h4 with
            | some a, some b, some c2, some d =>
              (parseStrBody rest3).map
                (fun p => (Char.ofNat (a * 4096 + b * 256 + c2 * 16 + d) :: p.1, p.2))
            | _, _, _, _ => none
          | _ => none
        else none
    else (parseStrBody rest).map (fun p => (c :: p.1, p.2))

/-- Parse a JSON string literal. -/
def parseStr (cs : List Char) : Option (String × List Char) :=
  match cs with
  | c :: rest =>
    if c = '"' then (parseStrBody rest).map (fun p => (⟨p.1⟩, p.2)) else none
  | [] => none

/-- Parse the items of a non-empty string array after `[`. -/
def parseArrItems : Nat → List Char → Option (List String × List Char)
  | 0, _ => none
  | fuel + 1, cs =>
    (parseStr cs).bind fun p =>
      match p.2 with
      | c :: rest2 =>
        if c = ',' then (parseArrItems fuel rest2).map (fun q => (p.1 :: q.1, q.2))
        else if c = ']' then some ([p.1], rest2)
        else none
      | [] => none

/-- Parse a JSON array of strings. -/
def parseArr (cs : List Char) : Option (List String × List Char) :=
  match cs with
  | c :: rest =>
    if c = '[' then
      match rest with
      | c2 :: rest2 =>
        if c2 = ']' then some ([], rest2) else parseArrItems rest.length rest
      | [] => none
    else none
  | [] => none

/-- Parse the fields of a non-empty header object after `{`. -/
def parseHobjItems : Nat → List Char → Option (HMap × List Char)
  | 0, _ => none
  | fuel + 1, cs =>
    (parseStr cs).bind fun p =>
      match p.2 with
      | c :: rest2 =>
        if c = ':' then
          (parseArr rest2).bind fun q =>
            match q.2 with
            | c2 :: rest3 =>
              if c2 = ',' then
                (parseHobjItems fuel rest3).map (fun r => ((p.1, q.1) :: r.1, r.2))
              else if c2 = '\x7d' then some ([(p.1, q.1)], rest3)
              else none
            | [] => none
        else none
      | [] => none

/-- Parse a header object. -/
def parseHobj (cs : List Char) : Option (HMap × List Char) :=
  match cs with
  | c :: rest =>
    if c = '\x7b' then
      match rest with
      | c2 :: rest2 =>
        if c2 = '\x7d' then some ([], rest2) else parseHobjItems rest.length rest
      | [] => none
    else none
  | [] => none

/-- Parse one JSON value of the line grammar, dispatching on the first
character. -/
def parseJvValue (cs : List Char) : Option (Jv × List Char) :=
  match cs with
  | c :: _ =>
    if c = '"' then (parseStr cs).map (fun p => (Jv.str p.1, p.2))
    else if c = '[' then (parseArr cs).map (fun p => (Jv.arrs p.1, p.2))
    else if c = '\x7b' then (parseHobj cs).map (fun p => (Jv.hobj p.1, p.2))
    else none
  | [] => none

/-- Parse the fields of a non-empty top-level object after `{`. -/
def parseLineItems : Nat → List Char → Option (JLine × List Char)
  | 0, _ => none
  | fuel + 1, cs =>
    (parseStr cs).bind fun p =>
      match p.2 with
      | c :: rest2 =>
        if c = ':' then
          (parseJvValue rest2).bind fun q =>
            match q.2 with
            | c2 :: rest3 =>
              if c2 = ',' then
                (parseLineItems fuel rest3).map (fun r => ((p.1, q.1) :: r.1, r.2))
              else if c2 = '\x7d' then some ([(p.1, q.1)], rest3)
              else none
            | [] => none
        else none
      | [] => none

/-- Parse one full target line: a single top-level JSON object with
nothing after it. -/
def parseLine (s : String) : Option JLine :=
  match s.data with
  | c :: rest =>
    if c = '\x7b' then
      match rest with
      | c2 :: rest2 =>
        if c2 = '\x7d' then (if rest2.isEmpty then some [] else none)
        else
          (parseLineItems rest.length rest).bind fun p =>
            if p.2.isEmpty then some p.1 else none
      | [] => none
    else none
  | [] => none

theorem unhex_hexDigit : ∀ n, n < 16 → unhex (hexDigit n) = some n := by decide

theorem psb_quote (rest : List Char) : parseStrBody ('"' :: rest) = some ([], rest) := by
  unfold parseStrBody
  rfl

theorem psb_esc_quote (rest : List Char) : parseStrBody ('\\' :: '"' :: rest) =
    (parseStrBody rest).map (fun p => ('"' :: p.1, p.2)) := by
  conv_lhs => unfold parseStrBody
  simp +decide

theorem psb_esc_bslash (rest : List Char) : parseStrBody ('\\' :: '\\' :: rest) =
    (parseStrBody rest).map (fun p => ('\\' :: p.1, p.2)) := by
  conv_lhs => unfold parseStrBody
  simp +decide

theorem psb_raw (c : Char) (rest : List Char) (h1 : ¬c = '"') (h2 : ¬c = '\\') :
    parseStrBody (c :: rest) = (parseStrBody rest).map (fun p => (c :: p.1, p.2)) := by
  conv_lhs => unfold parseStrBody
  rw [if_neg h1, if_neg h2]

theorem psb_u (h1 h2 h3 h4 : Char) (rest : List Char) (a b c2 d : Nat)
    (g1 : unhex h1 = some a) (g2 : unhex h2 = some b)
    (g3 : unhex h3 = some c2) (g4 : unhex h4 = some d) :
    parseStrBody ('\\' :: 'u' :: h1 :: h2 :: h3 :: h4 :: rest) =
      (parseStrBody rest).map
        (fun p => (Char.ofNat (a * 4096 + b * 256 + c2 * 16 + d) :: p.1, p.2)) := by
  conv_lhs => unfold parseStrBody
  simp +decide [g1, g2, g3, g4]

/-- Unescaping inverts escaping, for every string and continuation. -/
theorem parseStrBody_esc (rest : List Char) : ∀ (s : List Char),
    parseStrBody (escList s ++ '"' :: rest) = some (s, rest) := by
  intro s
  induction s with
  | nil => simp [escList, psb_quote]
  | cons c cs ih =>
    show parseStrBody ((escChar c ++ escList cs) ++ '"' :: rest) = _
    rw [List.append_assoc]
    unfold escChar
    by_cases h1 : c = '"'
    · subst h1
      simp [psb_esc_quote, ih]
    · by_cases h2 : c = '\\'
      · subst h2
        simp [psb_esc_bslash, ih]
      · by_cases h3 : c.toNat < 32
        · rw [if_neg h1, if_neg h2, if_pos h3]
          have g1 := unhex_hexDigit (c.toNat / 4096 % 16) (by omega)
          have g2 := unhex_hexDigit (c.toNat / 256 % 16) (by omega)
          have g3 := unhex_hexDigit (c.toNat / 16 % 16) (by omega)
          have g4 := unhex_hexDigit (c.toNat % 16) (by omega)
          have hn : c.toNat / 4096 % 16 * 4096 + c.toNat / 256 % 16 * 256 +
              c.toNat / 16 % 16 * 16 + c.toNat % 16 = c.toNat := by omega
          have hu := psb_u (hexDigit (c.toNat / 4096 % 16))
            (hexDigit (c.toNat / 256 % 16)) (hexDigit (c.toNat / 16 % 16))
            (hexDigit (c.toNat % 16)) (escList cs ++ '"' :: rest) _ _ _ _ g1 g2 g3 g4
          rw [hn] at hu
          simp [hex4, hu, ih]
        · rw [if_neg h1, if_neg h2, if_neg h3]
          simp [psb_raw c _ h1 h2, ih]

/-- Parsing inverts rendering for string literals. -/
theorem parseStr_render (s : String) (rest : List Char) :
    parseStr (renderStr s ++ rest) = some (s, rest) := by
  show parseStr ('"' :: (escList s.data ++ ['"']) ++ rest) = _
  simp only [List.cons_append, List.append_assoc, List.singleton_append]
  simp [parseStr, parseStrBody_esc]

theorem renderStr_length (s : String) : 2 ≤ (renderStr s).length := by
  simp [renderStr]

theorem commaSep_length (xs : List (List Char)) (h : ∀ x ∈ xs, 1 ≤ x.length) :
    xs.length ≤ (commaSep xs).length := by
  induction xs with
  | nil => simp [commaSep]
  | cons x xs ih =>
    cases xs with
    | nil => simpa [commaSep] using h x (by simp)
    | cons y ys =>
      have h1 : commaSep (x :: y :: ys) = x ++ ',' :: commaSep (y :: ys) := rfl
      rw [h1]
      have h2 := ih (fun z hz => h z (by simp [hz]))
      have h3 := h x (by simp)
      simp only [List.length_append, List.length_cons] at h2 ⊢
      omega

/-- Parsing inverts rendering for non-empty array item lists. -/
theorem parseArrItems_render : ∀ (l : List String) (fuel : Nat) (rest : List Char),
    l ≠ [] → l.length ≤ fuel →
    parseArrItems fuel (commaSep (l.map renderStr) ++ ']' :: rest) =
      some (l, rest) := by
  intro l
  induction l with
  | nil => intro fuel rest h _; exact absurd rfl h
  | cons s tl ih =>
    intro fuel rest _ hf
    match fuel, hf with
    | f + 1, hf2 =>
      cases tl with
      | nil =>
        have h1 : commaSep ([s].map renderStr) = renderStr s := rfl
        rw [h1]
        simp +decide [parseArrItems, parseStr_render s (']' :: rest)]
      | cons s2 tl2 =>
        have h1 : commaSep ((s :: s2 :: tl2).map renderStr) =
            renderStr s ++ ',' :: commaSep ((s2 :: tl2).map renderStr) := rfl
        rw [h1]
        simp only [List.append_assoc, List.cons_append]
        have h2 := parseStr_render s
          (',' :: (commaSep ((s2 :: tl2).map renderStr) ++ ']' :: rest))
        simp only [parseArrItems, h2, Option.some_bind]
        have h3 := ih f rest (by simp) (by
          simp only [List.length_cons] at hf2 ⊢
          omega)
        simp only [List.map_cons] at h3
        simp +decide [h3]
    | 0, hf0 => exact absurd hf0 (by simp)

/-- Parsing inverts rendering for string arrays. -/
theorem parseArr_render (l : List String) (rest : List Char) :
    parseArr (renderArr l ++ rest) = some (l, rest) := by
  cases l with
  | nil => simp +decide [renderArr, commaSep, parseArr]
  | cons s tl =>
    have hcs : ∃ tl2, commaSep ((s :: tl).map renderStr) = '"' :: tl2 := by
      cases tl with
      | nil => exact ⟨_, rfl⟩
      | cons s2 tl2 => exact ⟨_, rfl⟩
    obtain ⟨tl2, hcs⟩ := hcs
    have hshape : renderArr (s :: tl) ++ rest =
        '[' :: ('"' :: (tl2 ++ (']' :: rest))) := by
      show '[' :: (commaSep ((s :: tl).map renderStr) ++ [']']) ++ rest = _
      rw [hcs]
      simp
    rw [hshape]
    have hred : parseArr ('[' :: ('"' :: (tl2 ++ (']' :: rest)))) =
        parseArrItems ('"' :: (tl2 ++ (']' :: rest))).length
          ('"' :: (tl2 ++ (']' :: rest))) := by
      conv_lhs => unfold parseArr
      simp +decide
    rw [hred]
    have hback : '"' :: (tl2 ++ (']' :: rest)) =
        commaSep ((s :: tl).map renderStr) ++ ']' :: rest := by
      rw [hcs]
      simp
    rw [hback]
    apply parseArrItems_render (s :: tl) _ rest (by simp)
    have hlen : ((s :: tl).map renderStr).length ≤
        (commaSep ((s :: tl).map renderStr)).length := by
      apply commaSep_length
      intro x hx
      obtain ⟨y, _, hy⟩ := List.mem_map.mp hx
      have hr := renderStr_length y
      rw [← hy]
      omega
    simp only [List.length_map, List.length_append, List.length_cons] at hlen ⊢
    omega

/-- Parsing inverts rendering for non-empty header-object field lists. -/
theorem parseHobjItems_render : ∀ (fs : HMap) (fuel : Nat) (rest : List Char),
    fs ≠ [] → fs.length ≤ fuel →
    parseHobjItems fuel
      (commaSep (fs.map (fun kv => renderStr kv.1 ++ ':' :: renderArr kv.2)) ++
        '\x7d' :: rest) = some (fs, rest) := by
  intro fs
  induction fs with
  | nil => intro fuel rest h _; exact absurd rfl h
  | cons kv tl ih =>
    intro fuel rest _ hf
    match fuel, hf with
    | f + 1, hf2 =>
      cases tl with
      | nil =>
        have h1 : commaSep ([kv].map (fun kv => renderStr kv.1 ++ ':' :: renderArr kv.2)) =
            renderStr kv.1 ++ ':' :: renderArr kv.2 := rfl
        rw [h1]
        simp only [List.append_assoc, List.cons_append]
        have h2 := parseStr_render kv.1 (':' :: (renderArr kv.2 ++ '\x7d' :: rest))
        simp only [parseHobjItems, h2, Option.some_bind]
        have h3 := parseArr_render kv.2 ('\x7d' :: rest)
        simp +decide [h3]
      | cons kv2 tl2 =>
        have h1 : commaSep ((kv :: kv2 :: tl2).map
              (fun kv => renderStr kv.1 ++ ':' :: renderArr kv.2)) =
            (renderStr kv.1 ++ ':' :: renderArr kv.2) ++ ',' ::
              commaSep ((kv2 :: tl2).map
                (fun kv => renderStr kv.1 ++ ':' :: renderArr kv.2)) := rfl
        rw [h1]
        simp only [List.append_assoc, List.cons_append]
        have h2 := parseStr_render kv.1 (':' :: (renderArr kv.2 ++ ',' ::
          (commaSep ((kv2 :: tl2).map
            (fun kv => renderStr kv.1 ++ ':' :: renderArr kv.2)) ++ '\x7d' :: rest)))
        simp only [parseHobjItems, h2, Option.some_bind]
        have h3 := parseArr_render kv.2 (',' ::
          (commaSep ((kv2 :: tl2).map
            (fun kv => renderStr kv.1 ++ ':' :: renderArr kv.2)) ++ '\x7d' :: rest))
        have h4 := ih f rest (by simp) (by
          simp only [List.length_cons] at hf2 ⊢
          omega)
        simp only [List.map_cons] at h3 h4
        simp +decide [h3, h4]
    | 0, hf0 => exact absurd hf0 (by simp)

/-- Parsing inverts rendering for header objects. -/
theorem parseHobj_render (fs : HMap) (rest : List Char) :
    parseHobj (renderHobj fs ++ rest) = some (fs, rest) := by
  cases fs with
  | nil => simp +decide [renderHobj, commaSep, parseHobj]
  | cons kv tl =>
    have hcs : ∃ tl2, commaSep ((kv :: tl).map
        (fun kv => renderStr kv.1 ++ ':' :: renderArr kv.2)) = '"' :: tl2 := by
      cases tl with
      | nil => exact ⟨_, rfl⟩
      | cons kv2 tl2 => exact ⟨_, rfl⟩
    obtain ⟨tl2, hcs⟩ := hcs
    have hshape : renderHobj (kv :: tl) ++ rest =
        '\x7b' :: ('"' :: (tl2 ++ ('\x7d' :: rest))) := by
      show '\x7b' :: (commaSep ((kv :: tl).map
        (fun kv => renderStr kv.1 ++ ':' :: renderArr kv.2)) ++ ['\x7d']) ++ rest = _
      rw [hcs]
      simp
    rw [hshape]
    have hred : parseHobj ('\x7b' :: ('"' :: (tl2 ++ ('\x7d' :: rest)))) =
        parseHobjItems ('"' :: (tl2 ++ ('\x7d' :: rest))).length
          ('"' :: (tl2 ++ ('\x7d' :: rest))) := by
      conv_lhs => unfold parseHobj
      simp +decide
    rw [hred]
    have hback : '"' :: (tl2 ++ ('\x7d' :: rest)) =
        commaSep ((kv :: tl).map
          (fun kv => renderStr kv.1 ++ ':' :: renderArr kv.2)) ++ '\x7d' :: rest := by
      rw [hcs]
      simp
    rw [hback]
    apply parseHobjItems_render (kv :: tl) _ rest (by simp)
    have hlen : ((kv :: tl).map
        (fun kv => renderStr kv.1 ++ ':' :: renderArr kv.2)).length ≤
        (commaSep ((kv :: tl).map
          (fun kv => renderStr kv.1 ++ ':' :: renderArr kv.2))).length := by
      apply commaSep_length
      intro x hx
      obtain ⟨y, _, hy⟩ := List.mem_map.mp hx
      have hr := renderStr_length y.1
      rw [← hy]
      simp only [List.length_append, List.length_cons]
      omega
    simp only [List.length_map, List.length_append, List.length_cons] at hlen ⊢
    omega

/-- Parsing inverts rendering for every JSON value of the grammar. -/
theorem parseJvValue_render (v : Jv) (rest : List Char) :
    parseJvValue (renderJv v ++ rest) = some (v, rest) := by
  cases v with
  | str s =>
    have hr : renderJv (Jv.str s) ++ rest =
        '"' :: ((escList s.data ++ ['"']) ++ rest) := rfl
    rw [hr]
    have hred : parseJvValue ('"' :: ((escList s.data ++ ['"']) ++ rest)) =
        (parseStr ('"' :: ((escList s.data ++ ['"']) ++ rest))).map
          (fun p => (Jv.str p.1, p.2)) := by
      conv_lhs => unfold parseJvValue
      simp +decide
    rw [hred, ← hr]
    have h2 : renderJv (Jv.str s) ++ rest = renderStr s ++ rest := rfl
    rw [h2, parseStr_render]
    rfl
  | arrs l =>
    have hr : renderJv (Jv.arrs l) ++ rest =
        '[' :: ((commaSep (l.map renderStr) ++ [']']) ++ rest) := rfl
    rw [hr]
    have hred : parseJvValue ('[' :: ((commaSep (l.map renderStr) ++ [']']) ++ rest)) =
        (parseArr ('[' :: ((commaSep (l.map renderStr) ++ [']']) ++ rest))).map
          (fun p => (Jv.arrs p.1, p.2)) := by
      conv_lhs => unfold parseJvValue
      simp +decide
    rw [hred, ← hr]
    have h2 : renderJv (Jv.arrs l) ++ rest = renderArr l ++ rest := rfl
    rw [h2, parseArr_render]
    rfl
  | hobj fs =>
    have hr : renderJv (Jv.hobj fs) ++ rest =
        '\x7b' :: ((commaSep (fs.map
          (fun kv => renderStr kv.1 ++ ':' :: renderArr kv.2)) ++ ['\x7d']) ++ rest) := rfl
    rw [hr]
    have hred : parseJvValue ('\x7b' :: ((commaSep (fs.map
          (fun kv => renderStr kv.1 ++ ':' :: renderArr kv.2)) ++ ['\x7d']) ++ rest)) =
        (parseHobj ('\x7b' :: ((commaSep (fs.map
          (fun kv => renderStr kv.1 ++ ':' :: renderArr kv.2)) ++ ['\x7d']) ++ rest))).map
          (fun p => (Jv.hobj p.1, p.2)) := by
      conv_lhs => unfold parseJvValue
      simp +decide
    rw [hred, ← hr]
    have h2 : renderJv (Jv.hobj fs) ++ rest = renderHobj fs ++ rest := rfl
    rw [h2, parseHobj_render]
    rfl

/-- Parsing inverts rendering for non-empty top-level field lists. -/
theorem parseLineItems_render : ∀ (fs : JLine) (fuel : Nat) (rest : List Char),
    fs ≠ [] → fs.length ≤ fuel →
    parseLineItems fuel
      (commaSep (fs.map (fun kv => renderStr kv.1 ++ ':' :: renderJv kv.2)) ++
        '\x7d' :: rest) = some (fs, rest) := by
  intro fs
  induction fs with
  | nil => intro fuel rest h _; exact absurd rfl h
  | cons kv tl ih =>
    intro fuel rest _ hf
    match fuel, hf with
    | f + 1, hf2 =>
      cases tl with
      | nil =>
        have h1 : commaSep ([kv].map (fun kv => renderStr kv.1 ++ ':' :: renderJv kv.2)) =
            renderStr kv.1 ++ ':' :: renderJv kv.2 := rfl
        rw [h1]
        simp only [List.append_assoc, List.cons_append]
        have h2 := parseStr_render kv.1 (':' :: (renderJv kv.2 ++ '\x7d' :: rest))
        simp only [parseLineItems, h2, Option.some_bind]
        have h3 := parseJvValue_render kv.2 ('\x7d' :: rest)
        simp +decide [h3]
      | cons kv2 tl2 =>
        have h1 : commaSep ((kv :: kv2 :: tl2).map
              (fun kv => renderStr kv.1 ++ ':' :: renderJv kv.2)) =
            (renderStr kv.1 ++ ':' :: renderJv kv.2) ++ ',' ::
              commaSep ((kv2 :: tl2).map
                (fun kv => renderStr kv.1 ++ ':' :: renderJv kv.2)) := rfl
        rw [h1]
        simp only [List.append_assoc, List.cons_append]
        have h2 := parseStr_render kv.1 (':' :: (renderJv kv.2 ++ ',' ::
          (commaSep ((kv2 :: tl2).map
            (fun kv => renderStr kv.1 ++ ':' :: renderJv kv.2)) ++ '\x7d' :: rest)))
        simp only [parseLineItems, h2, Option.some_bind]
        have h3 := parseJvValue_render kv.2 (',' ::
          (commaSep ((kv2 :: tl2).map
            (fun kv => renderStr kv.1 ++ ':' :: renderJv kv.2)) ++ '\x7d' :: rest))
        have h4 := ih f rest (by simp) (by
          simp only [List.length_cons] at hf2 ⊢
          omega)
        simp only [List.map_cons] at h3 h4
        simp +decide [h3, h4]
    | 0, hf0 => exact absurd hf0 (by simp)

/-- Parsing inverts rendering for whole target lines. -/
theorem parseLine_render (fs : JLine) : parseLine ⟨renderLine fs⟩ = some fs := by
  cases fs with
  | nil => rfl
  | cons kv tl =>
    have hcs : ∃ tl2, commaSep ((kv :: tl).map
        (fun kv => renderStr kv.1 ++ ':' :: renderJv kv.2)) = '"' :: tl2 := by
      cases tl with
      | nil => exact ⟨_, rfl⟩
      | cons kv2 tl2 => exact ⟨_, rfl⟩
    obtain ⟨tl2, hcs⟩ := hcs
    have hdata : (⟨renderLine (kv :: tl)⟩ : String).data =
        '\x7b' :: ('"' :: (tl2 ++ ['\x7d'])) := by
      show '\x7b' :: (commaSep ((kv :: tl).map
        (fun kv => renderStr kv.1 ++ ':' :: renderJv kv.2)) ++ ['\x7d']) = _
      rw [hcs]
      simp
    have hred : parseLine ⟨renderLine (kv :: tl)⟩ =
        (parseLineItems ('"' :: (tl2 ++ ['\x7d'])).length
            ('"' :: (tl2 ++ ['\x7d']))).bind
          (fun p => if p.2.isEmpty then some p.1 else none) := by
      conv_lhs => unfold parseLine
      rw [hdata]
      simp +decide
    rw [hred]
    have hback : '"' :: (tl2 ++ ['\x7d']) =
        commaSep ((kv :: tl).map
          (fun kv => renderStr kv.1 ++ ':' :: renderJv kv.2)) ++ '\x7d' :: [] := by
      rw [hcs]
      simp
    rw [hback]
    have hlen : ((kv :: tl).map
        (fun kv => renderStr kv.1 ++ ':' :: renderJv kv.2)).length ≤
        (commaSep ((kv :: tl).map
          (fun kv => renderStr kv.1 ++ ':' :: renderJv kv.2))).length := by
      apply commaSep_length
      intro x hx
      obtain ⟨y, _, hy⟩ := List.mem_map.mp hx
      have hr := renderStr_length y.1
      rw [← hy]
      simp only [List.length_append, List.length_cons]
      omega
    have hitems := parseLineItems_render (kv :: tl)
      (commaSep ((kv :: tl).map
        (fun kv => renderStr kv.1 ++ ':' :: renderJv kv.2)) ++ '\x7d' :: []).length
      [] (by simp) (by
        simp only [List.length_map, List.length_append, List.length_cons] at hlen ⊢
        omega)
    rw [hitems]
    rfl

/-- Modelled from the spec: the field dispatch of the generated
easyjson decode — `method` and `url` are strings, `body` a base64
string, `header` an object of string arrays built into a fresh map by
assignment; unknown fields are skipped, type mismatches and bad base64
are parse errors. -/
def decodeField (t : JsonTarget) (k : String) (v : Jv) : Except String JsonTarget :=
  if k = "method" then
    match v with
    | .str s => .ok { t with Method := s }
    | _ => .error "method: string expected"
  else if k = "url" then
    match v with
    | .str s => .ok { t with URL := s }
    | _ => .error "url: string expected"
  else if k = "body" then
    match v with
    | .str s =>
      match b64decode s.data with
      | some bs => .ok { t with Body := bs }
      | none => .error "body: invalid base64"
    | _ => .error "body: string expected"
  else if k = "header" then
    match v with
    | .hobj fs => .ok { t with Header := hSetAll [] fs }
    | _ => .error "header: object expected"
  else .ok t

/-- Fold the fields of the object into the zero `jsonTarget`. -/
def decodeFields : List (String × Jv) → JsonTarget → Except String JsonTarget
  | [], t => .ok t
  | kv :: rest, t =>
    match decodeField t kv.1 kv.2 with
    | .ok t' => decodeFields rest t'
    | .error e => .error e

/-- Modelled from the spec: the generated easyjson decode of one parsed
object. -/
def decodeJT (fs : JLine) : Except String JsonTarget :=
  decodeFields fs ⟨"", "", [], []⟩

/-- Modelled from the spec: the generated easyjson encode — one compact
object with `method` and `url`, `body` as base64 when non-empty, and
`header` when non-empty. -/
def encodeJT (t : Target) : JLine :=
  [("method", .str t.Method), ("url", .str t.URL)] ++
  (if t.Body.isEmpty then [] else [("body", .str ⟨b64encode t.Body⟩)]) ++
  (match t.Header with
   | none => []
   | some h => if h.isEmpty then [] else [("header", .hobj h)])

/-- Modelled from the spec: the per-target function of
`NewJSONTargetEncoder` — serialize to one compact JSON line (the
appended newline is the line terminator of the stream model). -/
def encodeLine (t : Target) : String := ⟨renderLine (encodeJT t)⟩

/-- Modelled from the spec: the generated easyjson decode of one raw
line — parse the JSON object, then read its fields. -/
def jsonDecodeString (s : String) : Except String JsonTarget :=
  match parseLine s with
  | some fs => decodeJT fs
  | none => .error "parse error"

theorem hHasKey_append (m1 m2 : HMap) (k : String) :
    hHasKey (m1 ++ m2) k = (hHasKey m1 k || hHasKey m2 k) := by
  simp [hHasKey, List.any_append]

/-- Building a map by assignment from entries with fresh, unique keys
appends them in order. -/
theorem hSetAll_acc (h : HMap) : ∀ (acc : HMap),
    (∀ kv ∈ h, hHasKey acc kv.1 = false) → (h.map Prod.fst).Nodup →
    hSetAll acc h = acc ++ h := by
  induction h with
  | nil => intro acc _ _; simp [hSetAll]
  | cons a h ih =>
    intro acc hfree hnd
    rw [List.map_cons, List.nodup_cons] at hnd
    have h1 : hSetAll acc (a :: h) = hSetAll (hSet acc a.1 a.2) h := rfl
    have h2 : hSet acc a.1 a.2 = acc ++ [a] := by
      unfold hSet
      rw [if_neg (by simp [hfree a (by simp)])]
    rw [h1, h2, ih (acc ++ [a]) ?_ hnd.2]
    · simp
    · intro kv hkv
      have hf := hfree kv (by simp [hkv])
      have hne : a.1 ≠ kv.1 := by
        intro he
        exact hnd.1 (List.mem_map.mpr ⟨kv, hkv, he.symm⟩)
      rw [hHasKey_append, hf]
      simp [hHasKey, hne]

/-- Same for append-assignment (`hAppend`) from an accumulator with no
overlapping keys. -/
theorem hAppendAll_acc (h : HMap) : ∀ (acc : HMap),
    (∀ kv ∈ h, hHasKey acc kv.1 = false) → (h.map Prod.fst).Nodup →
    hAppendAll acc h = acc ++ h := by
  induction h with
  | nil => intro acc _ _; simp [hAppendAll]
  | cons a h ih =>
    intro acc hfree hnd
    rw [List.map_cons, List.nodup_cons] at hnd
    have h1 : hAppendAll acc (a :: h) = hAppendAll (hAppend acc a.1 a.2) h := rfl
    have h2 : hAppend acc a.1 a.2 = acc ++ [a] := by
      unfold hAppend
      rw [hLookup_eq_nil_of_not_has acc a.1 (hfree a (by simp))]
      unfold hSet
      rw [if_neg (by simp [hfree a (by simp)])]
      simp
    rw [h1, h2, ih (acc ++ [a]) ?_ hnd.2]
    · simp
    · intro kv hkv
      have hf := hfree kv (by simp [hkv])
      have hne : a.1 ≠ kv.1 := by
        intro he
        exact hnd.1 (List.mem_map.mpr ⟨kv, hkv, he.symm⟩)
      rw [hHasKey_append, hf]
      simp [hHasKey, hne]

theorem hSetAll_fresh (h : HMap) (hnd : (h.map Prod.fst).Nodup) :
    hSetAll [] h = h := by
  rw [hSetAll_acc h [] (fun kv _ => rfl) hnd]
  rfl

theorem hAppendAll_fresh (h : HMap) (hnd : (h.map Prod.fst).Nodup) :
    hAppendAll [] h = h := by
  rw [hAppendAll_acc h [] (fun kv _ => rfl) hnd]
  rfl

/-- Decoding inverts encoding at the `jsonTarget` level. -/
theorem decodeJT_encodeJT (t : Target) (hb : ∀ b ∈ t.Body, b < 256) :
    decodeJT (encodeJT t) =
      .ok ⟨t.Method, t.URL, t.Body, hSetAll [] (t.Header.getD [])⟩ := by
  have hbody : b64decode (String.mk (b64encode t.Body)).data = some t.Body :=
    b64_roundtrip t.Body.length t.Body le_rfl hb
  by_cases hbe : t.Body.isEmpty
  · have hb0 : t.Body = [] := by simpa using hbe
    cases hHd : t.Header with
    | none =>
      simp +decide [encodeJT, decodeJT, decodeFields, decodeField, hbe, hb0, hHd, hSetAll]
    | some h =>
      by_cases hhe : h.isEmpty
      · have hh0 : h = [] := by simpa using hhe
        simp +decide [encodeJT, decodeJT, decodeFields, decodeField, hbe, hb0, hHd, hh0,
          hSetAll]
      · have hh1 : h ≠ [] := by simpa using hhe
        simp +decide [encodeJT, decodeJT, decodeFields, decodeField, hbe, hb0, hHd, hh1]
  · cases hHd : t.Header with
    | none =>
      simp +decide [encodeJT, decodeJT, decodeFields, decodeField, hbe, hbody, hHd, hSetAll]
    | some h =>
      by_cases hhe : h.isEmpty
      · have hh0 : h = [] := by simpa using hhe
        simp +decide [encodeJT, decodeJT, decodeFields, decodeField, hbe, hbody, hHd, hh0,
          hSetAll]
      · have hh1 : h ≠ [] := by simpa using hhe
        simp +decide [encodeJT, decodeJT, decodeFields, decodeField, hbe, hbody, hHd, hh1]

/-- The trim of a one-character-wrapped list with non-space ends is
itself. -/
theorem trimSpaceList_wrapped (a : Char) (mid : List Char) (b : Char)
    (ha : isSpaceGo a = false) (hb : isSpaceGo b = false) :
    trimSpaceList (a :: (mid ++ [b])) = a :: (mid ++ [b]) := by
  unfold trimSpaceList
  rw [List.dropWhile_cons]
  simp only [ha, Bool.false_eq_true, if_false]
  rw [show (a :: (mid ++ [b])).reverse = b :: (mid.reverse ++ [a]) by simp]
  rw [List.dropWhile_cons]
  simp only [hb, Bool.false_eq_true, if_false]
  simp

/-- A rendered line is already trimmed. -/
theorem trim_renderLine (fs : JLine) :
    trimSpace ⟨renderLine fs⟩ = ⟨renderLine fs⟩ := by
  show (⟨trimSpaceList (renderLine fs)⟩ : String) = _
  congr 1
  show trimSpaceList ('\x7b' :: (commaSep _ ++ ['\x7d'])) = _
  exact trimSpaceList_wrapped _ _ _ (by decide) (by decide)

/-- A rendered line is non-blank. -/
theorem renderLine_ne_empty (fs : JLine) : (⟨renderLine fs⟩ : String) ≠ "" := by
  intro h
  have hd := congrArg String.data h
  show False
  rw [show (⟨renderLine fs⟩ : String).data = renderLine fs from rfl] at hd
  rw [show ("" : String).data = [] from rfl] at hd
  exact absurd hd (by simp [renderLine])

/-- `Target.Equal` holds whenever the compared fields coincide. -/
theorem Target.Equal_of_fields (a b : Target) (h1 : a.Method = b.Method)
    (h2 : a.URL = b.URL) (h3 : a.Body = b.Body) (h4 : a.Header = b.Header) :
    Target.Equal a b = true := by
  unfold Target.Equal
  rw [h1, h2, h3, h4]
  simp [hLen, List.all_eq_true]

/-- C9: encoding any target the JSON decoder can produce (non-empty
method and URL, byte body, non-nil header map with unique keys) through
the JSON target encoder and decoding the resulting line with a fresh
JSON decoder carrying no provider defaults succeeds and yields a target
equal, per `Target.Equal`, to the original. -/
theorem claim_C9_roundtrip (t : Target) (H : HMap)
    (hm : t.Method ≠ "") (hu : t.URL ≠ "") (hb : ∀ b ∈ t.Body, b < 256)
    (hH : t.Header = some H) (hnd : (H.map Prod.fst).Nodup) :
    (jsonNextAux jsonDecodeString [] [] [encodeLine t] blankTarget).1 = none ∧
    Target.Equal (jsonNextAux jsonDecodeString [] [] [encodeLine t]
      blankTarget).2.1 t = true := by
  have htrim : trimSpace (encodeLine t) = encodeLine t := trim_renderLine _
  have hne : trimSpace (encodeLine t) ≠ "" := by
    rw [htrim]
    exact renderLine_ne_empty _
  have hne2 : encodeLine t ≠ "" := renderLine_ne_empty (encodeJT t)
  have hdec : jsonDecodeString (encodeLine t) =
      .ok ⟨t.Method, t.URL, t.Body, H⟩ := by
    unfold jsonDecodeString encodeLine
    rw [parseLine_render]
    show decodeJT (encodeJT t) = _
    rw [decodeJT_encodeJT t hb, hH]
    rw [show (some H).getD ([] : HMap) = H from rfl, hSetAll_fresh H hnd]
  have hrun : jsonNextAux jsonDecodeString [] [] [encodeLine t] blankTarget =
      (none,
        { blankTarget with
          Method := t.Method
          URL := t.URL
          Body := if !t.Body.isEmpty then t.Body else []
          Header := some (hAppendAll (hAppendAll (blankTarget.Header.getD []) []) H) },
        []) := by
    simp only [jsonNextAux, htrim, if_neg hne2, hdec]
    simp [hm, hu]
  rw [hrun]
  refine ⟨rfl, ?_⟩
  apply Target.Equal_of_fields
  · rfl
  · rfl
  · show (if !t.Body.isEmpty then t.Body else []) = t.Body
    by_cases hbe : t.Body.isEmpty
    · simp_all
    · simp [hbe]
  · show some (hAppendAll (hAppendAll [] []) H) = t.Header
    rw [show hAppendAll ([] : HMap) [] = [] from rfl, hAppendAll_fresh H hnd, hH]

/-- C9 witness: the round trip at a concrete target with a quote, a
backslash, an empty value and a binary body. -/
theorem claim_C9_witness :
    (("POST" : String) ≠ "" ∧ ("https://h/p" : String) ≠ "" ∧
     (∀ b ∈ ([0, 255, 7] : List Nat), b < 256) ∧
     (Target.mk "POST" "https://h/p" [0, 255, 7]
        (some [("A", ["1", "2"]), ("X y", ["h\"i\\j", ""])]) "").Header =
       some [("A", ["1", "2"]), ("X y", ["h\"i\\j", ""])] ∧
     (([("A", ["1", "2"]), ("X y", ["h\"i\\j", ""])] : HMap).map Prod.fst).Nodup) ∧
    ((jsonNextAux jsonDecodeString [] []
        [encodeLine (Target.mk "POST" "https://h/p" [0, 255, 7]
          (some [("A", ["1", "2"]), ("X y", ["h\"i\\j", ""])]) "")] blankTarget).1 =
       none ∧
     Target.Equal
       (jsonNextAux jsonDecodeString [] []
         [encodeLine (Target.mk "POST" "https://h/p" [0, 255, 7]
           (some [("A", ["1", "2"]), ("X y", ["h\"i\\j", ""])]) "")] blankTarget).2.1
       (Target.mk "POST" "https://h/p" [0, 255, 7]
         (some [("A", ["1", "2"]), ("X y", ["h\"i\\j", ""])]) "") = true) :=
  ⟨⟨by decide, by decide, by decide, rfl, by decide⟩,
   claim_C9_roundtrip _ _ (by decide) (by decide) (by decide) rfl (by decide)⟩
